import Mathlib

/-!
# Test Record Reconciliation Engine — verification development

Shallow embedding of the record-reconciliation logic of the SpeakingTestApp
repository (`find_duplicates.py`, `process_and_compile.py`, and the inlined
duplicate-resolution code in `speaking_test.py`), together with proofs of the
spec's testable properties.

File contents are modelled as Lean `String`s (Python `str` over ASCII), Python
`int(...)` as a partial parse returning `Option Int`, `datetime(...)` as a
validated structure, directories as lists of named entries, and Python's
insertion-ordered `dict`/`defaultdict` as association lists.
-/

set_option autoImplicit false

namespace SpeakingTest

/-! ## Python string/number primitives -/

/-- ASCII whitespace as recognised by Python's `str.strip()` and the regex
class `\s` (space, tab, newline, carriage return, vertical tab, form feed). -/
def isPyWs (c : Char) : Bool :=
  c.toNat == 32 || c.toNat == 9 || c.toNat == 10 ||
  c.toNat == 13 || c.toNat == 11 || c.toNat == 12

/-- `'0' ≤ c ≤ '9'`. -/
def isAsciiDigit (c : Char) : Bool :=
  48 ≤ c.toNat && c.toNat ≤ 57

def digitVal (c : Char) : Nat := c.toNat - '0'.toNat

/-- Value of a (most-significant-first) list of decimal digit characters. -/
def natOfDigits (l : List Char) : Nat :=
  l.foldl (fun n c => n * 10 + digitVal c) 0

/-- Python `str.strip()` on a character list: drop leading and trailing
whitespace. -/
def stripWs (l : List Char) : List Char :=
  ((l.dropWhile isPyWs).reverse.dropWhile isPyWs).reverse

/-- Continuation of Python's integer-literal digit part: digits optionally
separated by single underscores (`digit (["_"] digit)*`, after the first
digit). -/
def digitsRest : List Char → Bool
  | [] => true
  | c :: rest =>
    if c == '_' then
      match rest with
      | [] => false
      | c2 :: rest2 => isAsciiDigit c2 && digitsRest rest2
    else isAsciiDigit c && digitsRest rest

/-- Python's integer-literal digit part: `digit (["_"] digit)*`. -/
def digitsPart : List Char → Bool
  | [] => false
  | c :: rest => isAsciiDigit c && digitsRest rest

/-- Digit value of a digit part, ignoring underscore separators. -/
def digitsValue (l : List Char) : Nat :=
  natOfDigits (l.filter (fun c => c != '_'))

/-- Python `int(s)` on a character list: optional surrounding whitespace, an
optional sign, then an underscore-separated digit run.  `none` models the
`ValueError` raised on any other shape. -/
def pyIntChars (l : List Char) : Option Int :=
  match stripWs l with
  | [] => none
  | c :: rest =>
    if c == '+' then (if digitsPart rest then some (digitsValue rest) else none)
    else if c == '-' then (if digitsPart rest then some (-(digitsValue rest : Int)) else none)
    else if digitsPart (c :: rest) then some (digitsValue (c :: rest)) else none

/-- Python `int(s)` for a `str` argument. -/
def pyInt (s : String) : Option Int :=
  pyIntChars s.toList

/-- Python `str.isdigit()` restricted to ASCII: nonempty and all digits. -/
def pyIsdigit (s : String) : Bool :=
  !s.isEmpty && s.toList.all isAsciiDigit

/-- `p` is a prefix of `l` (on characters). -/
def listIsPrefix : List Char → List Char → Bool
  | [], _ => true
  | _ :: _, [] => false
  | a :: ps, b :: ls => a == b && listIsPrefix ps ls

/-- Python's `needle in hay` substring test. -/
def hasSubstr : List Char → List Char → Bool
  | needle, [] => needle.isEmpty
  | needle, c :: rest => listIsPrefix needle (c :: rest) || hasSubstr needle rest

/-- Python's `needle in hay` on strings. -/
def strContains (needle hay : String) : Bool :=
  hasSubstr needle.toList hay.toList

/-- `p` is a suffix of `l` (on characters). -/
def listIsSuffix (p l : List Char) : Bool := listIsPrefix p.reverse l.reverse

/-- Python `s.startswith(pre)`. -/
def strStartsWith (s pre : String) : Bool := listIsPrefix pre.toList s.toList

/-- Python `s.endswith(suf)`. -/
def strEndsWith (s suf : String) : Bool := listIsSuffix suf.toList s.toList

/-- Python `s.replace(pat, repl)` for a nonempty pattern, with explicit fuel
(one unit per character of the remaining input suffices, since every step
consumes at least one character): replace non-overlapping occurrences left to
right, never rescanning the replacement text. -/
def pyReplaceF (pat repl : List Char) : Nat → List Char → List Char
  | _, [] => []
  | 0, l => l
  | Nat.succ fuel, c :: rest =>
    if pat.isEmpty then c :: rest
    else if listIsPrefix pat (c :: rest) then
      repl ++ pyReplaceF pat repl fuel ((c :: rest).drop pat.length)
    else c :: pyReplaceF pat repl fuel rest

/-- Python `s.replace(pat, repl)` on character lists. -/
def pyReplace (pat repl l : List Char) : List Char :=
  pyReplaceF pat repl l.length l

/-! ## `datetime` model -/

/-- A constructed `datetime.datetime` (to minute precision, as used by the
scripts). -/
structure PyDateTime where
  year : Nat
  month : Nat
  day : Nat
  hour : Nat
  minute : Nat
deriving Repr, DecidableEq

def isLeapYear (y : Nat) : Bool :=
  (y % 4 == 0 && y % 100 != 0) || y % 400 == 0

def daysInMonth (y m : Nat) : Nat :=
  if m = 2 then (if isLeapYear y then 29 else 28)
  else if m = 4 ∨ m = 6 ∨ m = 9 ∨ m = 11 then 30
  else 31

/-- `datetime(year, month, day, hour, minute)`: `some` exactly when the CPython
constructor accepts the arguments (`MINYEAR = 1`, `MAXYEAR = 9999`, valid
calendar day, valid time of day); `none` models the raised `ValueError`. -/
def mkDatetime (y mo d h mi : Int) : Option PyDateTime :=
  if 1 ≤ y ∧ y ≤ 9999 ∧ 1 ≤ mo ∧ mo ≤ 12 ∧ 1 ≤ d ∧
     d ≤ (daysInMonth y.toNat mo.toNat : Int) ∧
     0 ≤ h ∧ h ≤ 23 ∧ 0 ≤ mi ∧ mi ≤ 59 then
    some ⟨y.toNat, mo.toNat, d.toNat, h.toNat, mi.toNat⟩
  else none

/-- Mixed-radix encoding of an instant; on datetimes produced by `mkDatetime`
(month ≤ 12 < 13, day ≤ 31 < 32, hour < 24, minute < 60) it is strictly
monotone in the lexicographic field order, i.e. it mirrors Python's `datetime`
comparison, so it serves as the sort key. -/
def PyDateTime.encode (d : PyDateTime) : Nat :=
  (((d.year * 13 + d.month) * 32 + d.day) * 24 + d.hour) * 60 + d.minute

/-- `datetime(1900, 1, 1)`: the sentinel oldest instant returned on any
timestamp parse failure. -/
def sentinel : PyDateTime := ⟨1900, 1, 1, 0, 0⟩

/-! ## `find_duplicates.py`: filename and timestamp parsing -/

/-- Python `s.split(sep)` for a single separator character: split at every
occurrence, keeping empty pieces (`"".split('.') == ['']`). -/
def splitOnChar (sep : Char) : List Char → List (List Char)
  | [] => [[]]
  | c :: rest =>
    if c == sep then [] :: splitOnChar sep rest
    else
      match splitOnChar sep rest with
      | [] => [[c]]
      | g :: gs => (c :: g) :: gs

/-- Python `s.split(sep)` on strings (single-character separator). -/
def strSplitChar (sep : Char) (s : String) : List String :=
  (splitOnChar sep s.toList).map List.asString

/-- `parse_filename` (find_duplicates.py): extract
`(class_number, student_id, timestamp)` from
`SpeakingTest_CLASS_STUDENTID_TIMESTAMP.txt`; `none` when the name does not
match.  Mirrors the source: prefix/suffix check, remove every occurrence of
`".txt"`, split on underscores, require ≥ 4 parts with head `"SpeakingTest"`. -/
def parse_filename (filename : String) : Option (String × String × String) :=
  if !(strStartsWith filename "SpeakingTest_") || !(strEndsWith filename ".txt") then
    none
  else
    let name := (pyReplace ".txt".toList [] filename.toList).asString
    match strSplitChar '_' name with
    | p0 :: p1 :: p2 :: p3 :: _ =>
      if p0 = "SpeakingTest" then some (p1, p2, p3) else none
    | _ => none

/-- `normalize_student_id` (find_duplicates.py): all-digit ids are compared
with leading zeros stripped (`str(int(s))`); others literally. -/
def normalize_student_id (student_id : String) : String :=
  if pyIsdigit student_id then toString (natOfDigits student_id.toList) else student_id

/-- Year expansion shared by both timestamp parsers: a 2-character year gets
`"20"` prefixed (`year = '20' + year`). -/
def expandYear (ys : List Char) : List Char :=
  if ys.length = 2 then '2' :: '0' :: ys else ys

/-- `get_timestamp_for_sorting` (find_duplicates.py): split the timestamp on
`.`; with exactly 4 components, expand a 2-character year by prefixing `"20"`,
read hour/minute from the first 2 / next 2 characters of the 4th component
when it has ≥ 4 characters (else `"00"`/`"00"`), and build the datetime.  Any
failure (wrong component count, `int` parse error, invalid calendar date)
yields `datetime(1900, 1, 1)`. -/
def get_timestamp_for_sorting (timestamp_str : String) : PyDateTime :=
  match splitOnChar '.' timestamp_str.toList with
  | [year, month, day, time] =>
    let hm := if time.length ≥ 4 then (time.take 2, (time.drop 2).take 2)
              else (['0', '0'], ['0', '0'])
    match pyIntChars (expandYear year), pyIntChars month, pyIntChars day,
          pyIntChars hm.1, pyIntChars hm.2 with
    | some y, some mo, some d, some h, some mi =>
      match mkDatetime y mo d h mi with
      | some dt => dt
      | none => sentinel
    | _, _, _, _, _ => sentinel
  | _ => sentinel

/-- The timestamp parsing inlined in `speaking_test.py`'s
`find_and_move_duplicates`: identical to `get_timestamp_for_sorting` except
that hour falls back to `"00"` only when the 4th component has fewer than 2
characters (`time[:2] if len(time) >= 2 else '00'`), while minute still
requires ≥ 4 characters. -/
def speakingTestTimestamp (timestamp : String) : PyDateTime :=
  match splitOnChar '.' timestamp.toList with
  | [year, month, day, time] =>
    let hour := if time.length ≥ 2 then time.take 2 else ['0', '0']
    let minute := if time.length ≥ 4 then (time.drop 2).take 2 else ['0', '0']
    match pyIntChars (expandYear year), pyIntChars month, pyIntChars day,
          pyIntChars hour, pyIntChars minute with
    | some y, some mo, some d, some h, some mi =>
      match mkDatetime y mo d h mi with
      | some dt => dt
      | none => sentinel
    | _, _, _, _, _ => sentinel
  | _ => sentinel

/-- Statement predicate for C3: a timestamp is well-formed when it has exactly
4 dot-separated components whose fields — after 2-character-year expansion and
hour/minute slicing of the 4th component — all parse as integers and denote a
valid calendar instant.  Its complement is the claim's "malformed": wrong
component count, non-numeric fields, or invalid calendar date. -/
def wellFormedTs (s : String) : Bool :=
  match splitOnChar '.' s.toList with
  | [year, month, day, time] =>
    let hm := if time.length ≥ 4 then (time.take 2, (time.drop 2).take 2)
              else (['0', '0'], ['0', '0'])
    match pyIntChars (expandYear year), pyIntChars month, pyIntChars day,
          pyIntChars hm.1, pyIntChars hm.2 with
    | some y, some mo, some d, some h, some mi => (mkDatetime y mo d h mi).isSome
    | _, _, _, _, _ => false
  | _ => false

/-- Statement predicate for C4: either the string does not have 4 dot-separated
components, or its 4th component has fewer than 2 or at least 4 characters
(outside lengths 2–3, where the two inlined hour defaults differ). -/
def fourthComponentRegular (ts : String) : Bool :=
  match splitOnChar '.' ts.toList with
  | [_, _, _, time] => decide (time.length < 2) || decide (4 ≤ time.length)
  | _ => true

/-! ## `process_and_compile.py`: answer lines and scoring -/

/-- One parsed answer line `(question_num, points, binary_string, label)` as
produced by `parse_incomplete_test`. -/
structure Answer where
  q_num : Nat
  points : Nat
  binary : String
  label : String
deriving Repr, DecidableEq

/-- Python insertion-ordered `dict` assignment `m[k] = v`: overwrite in place
when the key is present, else append at the end. -/
def dictInsert (m : List (Nat × Nat)) (k v : Nat) : List (Nat × Nat) :=
  if m.any (fun p => p.1 == k) then
    m.map (fun p => if p.1 == k then (k, v) else p)
  else m ++ [(k, v)]

/-- Python 3 `round(x)` to an integer: round half to even on an exact
rational (the script's operand `total/max*100` is modelled exactly). -/
def pyRound (q : ℚ) : ℤ :=
  let f := ⌊q⌋
  let r := q - f
  if r < 1/2 then f
  else if r > 1/2 then f + 1
  else if f % 2 = 0 then f else f + 1

/-- Result quadruple of `calculate_score`:
`(total_score, max_score, percentage, total_questions)`. -/
structure Score where
  total_score : Nat
  max_score : Nat
  percentage : ℤ
  total_questions : Nat
deriving Repr, DecidableEq

/-- `calculate_score` (process_and_compile.py): keep only the last entry per
question number (dict assignment in input order), take the observed maximum
point value (fallback `5` for an empty values list), then
`total = Σ points`, `max = #questions × max_point_value`, and
`percentage = round(total/max*100)` (`0` when `max = 0`); the empty reduced
dict short-circuits to all zeros. -/
def calculate_score (questions : List Answer) : Score :=
  let question_dict := questions.foldl (fun m a => dictInsert m a.q_num a.points) []
  if question_dict.isEmpty then ⟨0, 0, 0, 0⟩
  else
    let all_points := question_dict.map (fun p => p.2)
    let max_point_value := if all_points.isEmpty then 5 else all_points.foldl max 0
    let total_questions := question_dict.length
    let total_score := all_points.sum
    let max_score := total_questions * max_point_value
    let percentage : ℤ :=
      if max_score > 0 then pyRound ((total_score : ℚ) / (max_score : ℚ) * 100) else 0
    ⟨total_score, max_score, percentage, total_questions⟩

/-! ## `parse_incomplete_test`: header detection and the question-line regex -/

/-- The headedness test of `parse_incomplete_test` (process_and_compile.py):
`'=' * 20 in content or 'Total Questions:' in content or 'Student:' in
content`. -/
def isHeadedStr (content : String) : Bool :=
  strContains (List.replicate 20 '=').asString content ||
  strContains "Total Questions:" content || strContains "Student:" content

/-- Python `content.split('\n')`. -/
def pyLines (content : String) : List String :=
  (splitOnChar '\n' content.toList).map List.asString

/-- Character class `[\d\s]` of the question regex. -/
def isDsChar (c : Char) : Bool := isAsciiDigit c || isPyWs c

def maxWsLen (l : List Char) : Nat := (l.takeWhile isPyWs).length

def maxDsLen (l : List Char) : Nat := (l.takeWhile isDsChar).length

/-- Innermost backtracking loop for the regex tail `\s+(.+)` after group 3:
try the whitespace run `\s+` from length `m` downwards; succeed with the
(nonempty) remainder matched by `.+`. -/
def bLoop (rest2 : List Char) : Nat → Option (List Char)
  | 0 => none
  | Nat.succ b =>
    if (rest2.drop (b + 1)).isEmpty then bLoop rest2 b
    else some (rest2.drop (b + 1))

/-- Backtracking loop for group 3 `([\d\s]+)`: try its length from `m`
downwards, re-maximising the following `\s+`.  Returns (group 3, group 4). -/
def aLoop (rest : List Char) : Nat → Option (List Char × List Char)
  | 0 => none
  | Nat.succ a =>
    match bLoop (rest.drop (a + 1)) (maxWsLen (rest.drop (a + 1))) with
    | some c => some (rest.take (a + 1), c)
    | none => aLoop rest a

/-- Backtracking loop for the `\s+` preceding group 3: try its length from `m`
downwards, re-maximising group 3. -/
def wLoop (u : List Char) : Nat → Option (List Char × List Char)
  | 0 => none
  | Nat.succ w =>
    match aLoop (u.drop (w + 1)) (maxDsLen (u.drop (w + 1))) with
    | some r => some r
    | none => wLoop u w

/-- Python `re` backtracking match of the regex tail `\s+([\d\s]+)\s+(.+)`
against `u` (greedy quantifiers, leftmost-longest groups on success):
returns (group 3, group 4). -/
def matchTail (u : List Char) : Option (List Char × List Char) :=
  wLoop u (maxWsLen u)

/-- Deterministic front of the question regex
`Question\s+(\d+):\s+(\d+)\s+=` (adjacent classes are disjoint, so greedy
matching with backtracking reduces to maximal runs): consumes through the
`=` and returns (question number, points, rest). -/
def frontParse (l : List Char) : Option (Nat × Nat × List Char) :=
  if listIsPrefix "Question".toList l then
    let r0 := l.drop 8
    let w1 := r0.takeWhile isPyWs
    let r1 := r0.drop w1.length
    let d1 := r1.takeWhile isAsciiDigit
    let r2 := r1.drop d1.length
    if w1.isEmpty || d1.isEmpty then none
    else
      match r2 with
      | c :: r3 =>
        if c = ':' then
          let w2 := r3.takeWhile isPyWs
          let r4 := r3.drop w2.length
          let d2 := r4.takeWhile isAsciiDigit
          let r5 := r4.drop d2.length
          let w3 := r5.takeWhile isPyWs
          if w2.isEmpty || d2.isEmpty || w3.isEmpty then none
          else
            match r5.drop w3.length with
            | c2 :: r6 =>
              if c2 = '=' then some (natOfDigits d1, natOfDigits d2, r6) else none
            | [] => none
        else none
      | [] => none
  else none

/-- The question-line parse of `parse_incomplete_test`: strip the line, check
the `Question` prefix, match
`Question\s+(\d+):\s+(\d+)\s+=\s+([\d\s]+)\s+(.+)`, and build
`(int(g1), int(g2), g3.strip(), g4.strip())`. -/
def parseQuestionLine (line : String) : Option Answer :=
  let l := stripWs line.toList
  if listIsPrefix "Question".toList l then
    match frontParse l with
    | some (q, p, r6) =>
      match matchTail r6 with
      | some (g3, g4) => some ⟨q, p, (stripWs g3).asString, (stripWs g4).asString⟩
      | none => none
    | none => none
  else none

/-- `parse_incomplete_test` (process_and_compile.py) on a readable body:
`(questions, has_header)` — a body with a header marker short-circuits to
`([], true)`; otherwise every line is stripped and matched against the
question regex, non-matching lines being ignored. -/
def parse_incomplete_test (content : String) : List Answer × Bool :=
  if isHeadedStr content then ([], true)
  else ((pyLines content).filterMap parseQuestionLine, false)

/-- Declarative semantics of the regex tail `\s+([\d\s]+)\s+(.+)`: some
decomposition into nonempty whitespace, digit/whitespace, whitespace and
arbitrary-remainder parts exists. -/
def TailMatch (u : List Char) : Prop :=
  ∃ w a b c : List Char,
    u = w ++ (a ++ (b ++ c)) ∧
    w ≠ [] ∧ (∀ x ∈ w, isPyWs x = true) ∧
    a ≠ [] ∧ (∀ x ∈ a, isDsChar x = true) ∧
    b ≠ [] ∧ (∀ x ∈ b, isPyWs x = true) ∧ c ≠ []

/-- Declarative semantics of the whole question regex on the stripped line. -/
def regexMatches (line : String) : Prop :=
  ∃ w1 d1 w2 d2 w3 tail : List Char,
    stripWs line.toList =
      "Question".toList ++ (w1 ++ (d1 ++ ':' :: (w2 ++ (d2 ++ (w3 ++ '=' :: tail))))) ∧
    w1 ≠ [] ∧ (∀ x ∈ w1, isPyWs x = true) ∧
    d1 ≠ [] ∧ (∀ x ∈ d1, isAsciiDigit x = true) ∧
    w2 ≠ [] ∧ (∀ x ∈ w2, isPyWs x = true) ∧
    d2 ≠ [] ∧ (∀ x ∈ d2, isAsciiDigit x = true) ∧
    w3 ≠ [] ∧ (∀ x ∈ w3, isPyWs x = true) ∧
    TailMatch tail

/-- Statement predicate for C8 (the claim's shape, least-restrictive label
reading): `Question <int>: <int> = <5 whitespace-separated 0/1 tokens>
<label>` with a nonempty label.  The front coincides with the regex front. -/
def eatWs (l : List Char) : Option (List Char) :=
  let w := l.takeWhile isPyWs
  if w.isEmpty then none else some (l.drop w.length)

/-- Consume one `0`/`1` token followed by whitespace. -/
def eatBitWs (l : List Char) : Option (List Char) :=
  match l with
  | c :: rest => if c == '0' || c == '1' then eatWs rest else none
  | [] => none

/-- The claim's line shape as a boolean check (see `eatWs`). -/
def specAnswerShape (line : String) : Bool :=
  match frontParse (stripWs line.toList) with
  | none => false
  | some (_, _, r6) =>
    match ((((eatWs r6).bind eatBitWs).bind eatBitWs).bind eatBitWs).bind eatBitWs with
    | none => false
    | some t =>
      match t with
      | c :: rest =>
        if c == '0' || c == '1' then
          match eatWs rest with
          | some lab => !lab.isEmpty
          | none => false
        else false
      | [] => false

/-! ## Generic stable sort (Python `sorted` / `list.sort`) -/

/-- Insert `x` after every element `y` with `le y x` (stable insertion). -/
def insertSorted {α : Type} (le : α → α → Bool) (x : α) : List α → List α
  | [] => [x]
  | y :: ys => if le y x then y :: insertSorted le x ys else x :: y :: ys

/-- Stable ascending sort with respect to a total boolean preorder `le`;
extensionally equal to Python's stable `sort`/`sorted` for such a key
comparison. -/
def stableSort {α : Type} (le : α → α → Bool) (l : List α) : List α :=
  l.foldl (fun acc x => insertSorted le x acc) []

/-! ## Duplicate Resolver (`find_duplicates.py`) -/

/-- One `os.listdir` entry of a class folder. -/
structure DirEntry where
  name : String
  isFile : Bool
deriving Repr, DecidableEq

/-- One scanned record of `find_duplicates_in_folder` (the per-file dict). -/
structure RecInfo where
  filename : String
  class_number : String
  student_id : String
  timestamp : String
  dt : PyDateTime
deriving Repr, DecidableEq

/-- The scan phase of `find_duplicates_in_folder`: skip non-files, skip names
containing `_PROCESSED.txt`, skip names `parse_filename` rejects; parse the
rest. -/
def scanEntry (e : DirEntry) : Option RecInfo :=
  if !e.isFile then none
  else if strContains "_PROCESSED.txt" e.name then none
  else
    match parse_filename e.name with
    | none => none
    | some (cls, sid, ts) =>
      some ⟨e.name, cls, sid, ts, get_timestamp_for_sorting ts⟩

def scanRecords (listing : List DirEntry) : List RecInfo :=
  listing.filterMap scanEntry

/-- Bucket key `(class_number, normalized_student_id)`. -/
def recKey (r : RecInfo) : String × String :=
  (r.class_number, normalize_student_id r.student_id)

/-- Python `defaultdict(list)` grouping in insertion order: one bucket per
key, keyed by first occurrence, each bucket listing its records in scan
order. -/
def groupRecords : List RecInfo → List ((String × String) × List RecInfo)
  | [] => []
  | r :: rs =>
    (recKey r, r :: rs.filter (fun x => recKey x == recKey r)) ::
      groupRecords (rs.filter (fun x => recKey x != recKey r))
termination_by l => l.length
decreasing_by
  simp only [List.length_cons]
  exact Nat.lt_succ_of_le (List.length_filter_le _ _)

/-- `files.sort(key=lambda x: x['datetime'])` comparison: Python `datetime`
order is lexicographic on the fields, i.e. the `encode` order. -/
def dtLE (a b : RecInfo) : Bool := a.dt.encode ≤ b.dt.encode

/-- One tuple of the `duplicates` output list:
`(filepath, filename, class, student_id, timestamp, is_duplicate)`. -/
structure DupEntry where
  filepath : String
  filename : String
  class_number : String
  student_id : String
  timestamp : String
  is_duplicate : Bool
deriving Repr, DecidableEq

/-- The per-bucket step of `find_duplicates_in_folder` (find_duplicates.py):
a bucket with more than one member is sorted ascending by parsed instant
(stable) and emitted in sorted order, all but the last (newest) flagged as
duplicates. -/
def dupStep (folder : String) (acc : List DupEntry)
    (kv : (String × String) × List RecInfo) : List DupEntry :=
  if kv.2.length > 1 then
    let sorted := stableSort dtLE kv.2
    acc ++ sorted.mapIdx (fun i f =>
      ⟨folder ++ "/" ++ f.filename, f.filename, f.class_number, f.student_id,
        f.timestamp, decide (i < sorted.length - 1)⟩)
  else acc

def find_duplicates_in_folder (folder : String) (listing : List DirEntry) :
    List DupEntry :=
  (groupRecords (scanRecords listing)).foldl (dupStep folder) []

/-- The class directory after the first Resolver run, all moves having
succeeded: the flagged duplicates have been relocated out of the folder, the
rest is untouched. -/
def keptListing (folder : String) (listing : List DirEntry) : List DirEntry :=
  listing.filter (fun e =>
    !((((find_duplicates_in_folder folder listing).filter
        (fun d => d.is_duplicate)).map (fun d => d.filename)).contains e.name))

/-- `os.path.splitext`: split off the extension at the last dot, treating a
leading all-dots run as part of the root. -/
def splitext (s : String) : String × String :=
  let l := s.toList
  let lead := l.takeWhile (fun c => c == '.')
  let rest := l.drop lead.length
  if rest.any (fun c => c == '.') then
    let extRev := l.reverse.takeWhile (fun c => c != '.')
    ((l.take (l.length - (extRev.length + 1))).asString,
      ('.' :: extRev.reverse).asString)
  else (s, "")

def dupName (base ext : String) (n : Nat) : String :=
  base ++ "_dup" ++ toString n ++ ext

/-- The collision loop of `move_duplicates`: try `base_dup1`, `base_dup2`, …
until the destination is free.  The fuel `existing.length + 1` suffices: the
candidate names are pairwise distinct, so some candidate among the first
`existing.length + 1` is not taken. -/
def freeLoop (base ext : String) (existing : List String) : Nat → Nat → String
  | 0, n => dupName base ext n
  | Nat.succ fuel, n =>
    if dupName base ext n ∈ existing then freeLoop base ext existing fuel (n + 1)
    else dupName base ext n

/-- Destination name in the quarantine folder for a moved file. -/
def freeDest (filename : String) (existing : List String) : String :=
  if filename ∈ existing then
    let be := splitext filename
    freeLoop be.1 be.2 existing (existing.length + 1) 1
  else filename

/-- `move_duplicates` (find_duplicates.py), with the quarantine directory
modelled as its list of names and every `shutil.move` succeeding: returns
`(moved_count, new quarantine contents, (source, destination) moves)`. -/
def move_duplicates (dups : List DupEntry) (quarantine : List String) :
    Nat × List String × List (String × String) :=
  dups.foldl (fun st d =>
    if d.is_duplicate then
      let dest := freeDest d.filename st.2.1
      (st.1 + 1, st.2.1 ++ [dest], st.2.2 ++ [(d.filename, dest)])
    else st) (0, quarantine, [])

/-! ## Header synthesis (`generate_complete_report`) -/

/-- Python `s.zfill(2)`. -/
def zfill2 (s : String) : String :=
  if s.length ≥ 2 then s
  else (List.replicate (2 - s.length) '0').asString ++ s

/-- Python `s.ljust(n)`. -/
def ljustN (n : Nat) (s : String) : String :=
  if s.length ≥ n then s else s ++ (List.replicate (n - s.length) ' ').asString

/-- Python `s.rjust(n)`. -/
def rjustN (n : Nat) (s : String) : String :=
  if s.length ≥ n then s else (List.replicate (n - s.length) ' ').asString ++ s

/-- The 67-`=` separator line of a header. -/
def eqLine : String := (List.replicate 67 '=').asString

/-- Sort key of the point-scale legend, `key=lambda x: (-x[1][0], x[0])`:
descending point value, ties by ascending position. -/
def scaleKeyLE (a b : Nat × Nat × String) : Bool :=
  b.2.1 < a.2.1 || (a.2.1 == b.2.1 && a.1 ≤ b.1)

/-- The point-scale legend block: sorted entries with a nonzero point value
or nonempty label, one `<points> = <label>` line each. -/
def scaleLegend (point_scale : List (Nat × Nat × String)) : String :=
  ((stableSort scaleKeyLE point_scale).filter
    (fun e => e.2.1 != 0 || !e.2.2.isEmpty)).foldl
    (fun acc e => acc ++ toString e.2.1 ++ " = " ++ e.2.2 ++ "\n") ""

/-- The `Student:` line (present when the student id is truthy). -/
def studentLine (student_id : String) : String :=
  if student_id.isEmpty then ""
  else "Student: " ++
    (if pyIsdigit student_id then zfill2 student_id else student_id) ++ "\n"

/-- The summary line of the header. -/
def summaryLine (total_questions max_score total_score : Nat)
    (percentage : ℤ) : String :=
  "Total Questions: " ++ toString total_questions ++ "   Max Score: " ++
    toString max_score ++ "   Score: " ++ toString total_score ++
    "   Percentage: " ++ toString percentage ++ "%\n"

/-- Everything of the header built by `generate_complete_report` except the
final blank-line newline. -/
def synthHeaderBody (original_filename student_id : String)
    (total_questions max_score total_score : Nat) (percentage : ℤ)
    (point_scale : List (Nat × Nat × String)) : String :=
  original_filename ++ "\n" ++ studentLine student_id ++
    (eqLine ++ "\n" ++
      summaryLine total_questions max_score total_score percentage ++
      eqLine ++ "\n" ++ scaleLegend point_scale)

/-- The full header string of `generate_complete_report` (ends with the
blank-line newline). -/
def synthesizeHeader (original_filename student_id : String)
    (total_questions max_score total_score : Nat) (percentage : ℤ)
    (point_scale : List (Nat × Nat × String)) : String :=
  synthHeaderBody original_filename student_id total_questions max_score
    total_score percentage point_scale ++ "\n"

/-- `generate_complete_report` (process_and_compile.py), as the content it
writes back to the record file: the synthesized header followed by the
original content unchanged. -/
def generate_complete_report (original_filename original_content
    student_id : String) (total_questions max_score total_score : Nat)
    (percentage : ℤ) (point_scale : List (Nat × Nat × String)) : String :=
  synthesizeHeader original_filename student_id total_questions max_score
    total_score percentage point_scale ++ original_content

/-! ## Class Summary Compiler (`compile_class_summary`) -/

/-- Header fields accumulated by the per-line parse inside
`compile_class_summary`. -/
structure HeaderFields where
  student_id : Option String
  student_name : String
  total_score : Nat
  max_score : Nat
  percentage : Nat
deriving Repr, DecidableEq

/-- `re.search(pat + r"\s*(\d+)", line)`: scan left to right for the first
position where the literal pattern, optional whitespace and a nonempty digit
run match; return the run value. -/
def searchNumAfter (pat : List Char) : List Char → Option Nat
  | [] => none
  | c :: rest =>
    if listIsPrefix pat (c :: rest) then
      let r := ((c :: rest).drop pat.length).dropWhile isPyWs
      let d := r.takeWhile isAsciiDigit
      if d.isEmpty then searchNumAfter pat rest else some (natOfDigits d)
    else searchNumAfter pat rest

/-- `re.search(r"Percentage:\s*(\d+)%", line)`: like `searchNumAfter` but the
(maximal) digit run must be followed by `%`. -/
def searchPct : List Char → Option Nat
  | [] => none
  | c :: rest =>
    if listIsPrefix "Percentage:".toList (c :: rest) then
      let r := ((c :: rest).drop 11).dropWhile isPyWs
      let d := r.takeWhile isAsciiDigit
      match r.drop d.length with
      | '%' :: _ => if d.isEmpty then searchPct rest else some (natOfDigits d)
      | _ => searchPct rest
    else searchPct rest

/-- One line of the header-parsing loop of `compile_class_summary`: a
`Student:` line sets id (first token) and name (rest after the first space);
a line containing both `Total Questions:` and `Score:` sets the three
numeric fields via `re.search` (each failed search leaves the field
untouched, i.e. zero by default). -/
def headerLineStep (acc : HeaderFields) (line : String) : HeaderFields :=
  if listIsPrefix "Student:".toList line.toList then
    let t := stripWs (pyReplace "Student:".toList [] line.toList)
    let p0 := t.takeWhile (fun c => c != ' ')
    { acc with
      student_id := some p0.asString,
      student_name :=
        if p0.length < t.length then (t.drop (p0.length + 1)).asString else "" }
  else if strContains "Total Questions:" line && strContains "Score:" line then
    { acc with
      total_score :=
        match searchNumAfter "Score:".toList line.toList with
        | some v => v
        | none => acc.total_score,
      max_score :=
        match searchNumAfter "Max Score:".toList line.toList with
        | some v => v
        | none => acc.max_score,
      percentage :=
        match searchPct line.toList with
        | some v => v
        | none => acc.percentage }
  else acc

/-- The header-parsing loop of `compile_class_summary` over all lines. -/
def extractHeaderFields (content : String) : HeaderFields :=
  (pyLines content).foldl headerLineStep ⟨none, "", 0, 0, 0⟩

/-- `extract_info_from_filename` (process_and_compile.py). -/
def extract_info_from_filename (filename : String) :
    Option (String × String × String) :=
  match strSplitChar '_' (pyReplace ".txt".toList [] filename.toList).asString with
  | p0 :: p1 :: p2 :: p3 :: _ =>
    if p0 = "SpeakingTest" then some (p1, p2, p3) else none
  | _ => none

/-- The filename filter of `compile_class_summary`. -/
def passesCompileFilter (f : String) : Bool :=
  strStartsWith f "SpeakingTest_" && strEndsWith f ".txt" &&
  !(strContains "_Unprocessed.txt" f) && !(strContains "_PROCESSED.txt" f)

/-- One collected summary entry. -/
structure SummaryEntry where
  student_id : String
  student_name : String
  total_score : Nat
  max_score : Nat
  percentage : Nat
  timestamp : String
deriving Repr, DecidableEq

/-- The collection phase of `compile_class_summary`: for each filename that
passes the filter and whose body is readable, extract the header fields and
the filename timestamp; append an entry when both the student id and the
timestamp are truthy (present and nonempty). -/
def collectStep (readFile : String → Option String)
    (acc : List SummaryEntry) (f : String) : List SummaryEntry :=
  if passesCompileFilter f then
    match readFile f with
    | none => acc
    | some c =>
      let hf := extractHeaderFields c
      match hf.student_id, extract_info_from_filename f with
      | some sid, some info =>
        if !sid.isEmpty && !info.2.2.isEmpty then
          acc ++ [⟨sid, hf.student_name, hf.total_score, hf.max_score,
            hf.percentage, info.2.2⟩]
        else acc
      | _, _ => acc
  else acc

def collectEntries (listing : List String)
    (readFile : String → Option String) : List SummaryEntry :=
  listing.foldl (collectStep readFile) []

/-- Date stamp derived from the first entry timestamp (`YY.MM.DD`, 4-digit
years truncated to their last two digits); `today` stands in for
`datetime.now().strftime("%y.%m.%d")` when the timestamp has fewer than 3
components. -/
def summaryDate (ts today : String) : String :=
  match strSplitChar '.' ts with
  | yy :: mm :: dd :: _ =>
    let yy2 := if yy.length = 4 then ((yy.toList.drop 2).asString) else yy
    yy2 ++ "." ++ mm ++ "." ++ dd
  | _ => today

/-- One formatted summary line. -/
def summaryEntryLine (date_str : String) (e : SummaryEntry) : String :=
  let student_display :=
    if pyIsdigit e.student_id then zfill2 e.student_id else ljustN 2 e.student_id
  let name_display :=
    if e.student_name.isEmpty then ljustN 20 ""
    else ((ljustN 20 e.student_name).toList.take 20).asString
  let score_display :=
    rjustN 10 (toString e.total_score ++ "/" ++ toString e.max_score)
  let percent_display := rjustN 5 (toString e.percentage ++ "%")
  let ts_parts := strSplitChar '.' e.timestamp
  let time_part :=
    if ts_parts.length ≥ 4 then
      (((ts_parts.getLast?).getD "").toList.take 4).asString
    else "0000"
  date_str ++ "." ++ time_part ++ ":   Student " ++ student_display ++ " " ++
    name_display ++ ":  " ++ score_display ++ " = " ++ percent_display

/-- `compile_class_summary` (process_and_compile.py): collect the entries; an
empty set writes nothing and returns `(none, 0)`; otherwise fully rewrite the
summary file (name keyed by class and the first entry date) with a two-line
header, a separator, a blank line, and one formatted line per entry in scan
order.  Returns `(written file as (name, lines), entry count)`. -/
def compile_class_summary (class_number : String) (listing : List String)
    (readFile : String → Option String) (today : String) :
    Option (String × List String) × Nat :=
  let entries := collectEntries listing readFile
  match entries with
  | [] => (none, 0)
  | e0 :: _ =>
    let date_str := summaryDate e0.timestamp today
    let path := class_number ++ "_SpeakingTest." ++ date_str ++ ".txt"
    let lines :=
      ("Class " ++ class_number ++ " - Speaking Test Summary") ::
      ("Date: 20" ++ (pyReplace ['.'] ['-'] date_str.toList).asString) ::
      (List.replicate 80 '=').asString ::
      "" :: entries.map (summaryEntryLine date_str)
    (some (path, lines), entries.length)

/-! ## Helper lemmas: digits, whitespace, splitting -/

theorem isPyWs_eq_false_of_digit {c : Char} (h : isAsciiDigit c = true) :
    isPyWs c = false := by
  simp only [isAsciiDigit, Bool.and_eq_true, decide_eq_true_eq] at h
  simp only [isPyWs, Bool.or_eq_false_iff, beq_eq_false_iff_ne, ne_eq]
  omega

theorem digit_beq_eq_false {c d : Char} (hc : isAsciiDigit c = true)
    (hd : isAsciiDigit d = false) : (c == d) = false := by
  by_cases h' : c = d
  · subst h'
    rw [hc] at hd
    exact absurd hd (by decide)
  · exact beq_eq_false_iff_ne.mpr h'

theorem dropWhile_eq_self_of_all {p : Char → Bool} {l : List Char}
    (h : ∀ c ∈ l, p c = false) : l.dropWhile p = l := by
  cases l with
  | nil => rfl
  | cons c cs => simp [List.dropWhile_cons, h c (List.mem_cons_self _ _)]

theorem stripWs_eq_self_of_digits {l : List Char}
    (h : ∀ c ∈ l, isAsciiDigit c = true) : stripWs l = l := by
  unfold stripWs
  rw [dropWhile_eq_self_of_all (fun c hc => isPyWs_eq_false_of_digit (h c hc)),
      dropWhile_eq_self_of_all (fun c hc =>
        isPyWs_eq_false_of_digit (h c (List.mem_reverse.mp hc))),
      List.reverse_reverse]

theorem digitsRest_eq_true_of_digits {l : List Char}
    (h : ∀ c ∈ l, isAsciiDigit c = true) : digitsRest l = true := by
  induction l with
  | nil => rfl
  | cons c cs ih =>
    have hc := h c (List.mem_cons_self _ _)
    have h1 := digit_beq_eq_false hc (show isAsciiDigit '_' = false by decide)
    have h2 := ih (fun c' hc' => h c' (List.mem_cons_of_mem _ hc'))
    rw [digitsRest.eq_def]
    dsimp only
    rw [h1]
    simp [hc, h2]

theorem digitsPart_eq_true_of_digits {l : List Char} (hne : l ≠ [])
    (h : ∀ c ∈ l, isAsciiDigit c = true) : digitsPart l = true := by
  cases l with
  | nil => exact absurd rfl hne
  | cons c cs =>
    simp [digitsPart, h c (List.mem_cons_self _ _),
      digitsRest_eq_true_of_digits (fun c' hc' => h c' (List.mem_cons_of_mem _ hc'))]

theorem digitsValue_eq_natOfDigits {l : List Char}
    (h : ∀ c ∈ l, isAsciiDigit c = true) : digitsValue l = natOfDigits l := by
  unfold digitsValue
  congr 1
  refine List.filter_eq_self.mpr (fun c hc => ?_)
  have := digit_beq_eq_false (h c hc) (show isAsciiDigit '_' = false by decide)
  simp [bne, this]

theorem pyIntChars_digits {l : List Char} (hne : l ≠ [])
    (h : ∀ c ∈ l, isAsciiDigit c = true) :
    pyIntChars l = some ((natOfDigits l : Int)) := by
  cases l with
  | nil => exact absurd rfl hne
  | cons c cs =>
    have hc := h c (List.mem_cons_self _ _)
    unfold pyIntChars
    rw [stripWs_eq_self_of_digits h]
    dsimp only
    rw [digit_beq_eq_false hc (show isAsciiDigit '+' = false by decide),
        digit_beq_eq_false hc (show isAsciiDigit '-' = false by decide)]
    simp [digitsPart_eq_true_of_digits (List.cons_ne_nil _ _) h,
      digitsValue_eq_natOfDigits h]

theorem splitOnChar_eq_single {sep : Char} {a : List Char}
    (h : ∀ c ∈ a, (c == sep) = false) : splitOnChar sep a = [a] := by
  induction a with
  | nil => rfl
  | cons c cs ih =>
    simp [splitOnChar, h c (List.mem_cons_self _ _),
      ih (fun c' hc' => h c' (List.mem_cons_of_mem _ hc'))]

theorem splitOnChar_append {sep : Char} {a : List Char} (b : List Char)
    (h : ∀ c ∈ a, (c == sep) = false) :
    splitOnChar sep (a ++ sep :: b) = a :: splitOnChar sep b := by
  induction a with
  | nil => simp [splitOnChar]
  | cons c cs ih =>
    have hc := h c (List.mem_cons_self _ _)
    have hcs := ih (fun c' hc' => h c' (List.mem_cons_of_mem _ hc'))
    simp only [List.cons_append, splitOnChar, List.append_eq]
    rw [hc, hcs]
    simp

theorem mkDatetime_natCast {y mo d h mi : Nat}
    (h1 : 1 ≤ y) (h2 : y ≤ 9999) (h3 : 1 ≤ mo) (h4 : mo ≤ 12) (h5 : 1 ≤ d)
    (h6 : d ≤ daysInMonth y mo) (h7 : h ≤ 23) (h8 : mi ≤ 59) :
    mkDatetime y mo d h mi = some ⟨y, mo, d, h, mi⟩ := by
  unfold mkDatetime
  rw [if_pos]
  · simp
  · simp only [Int.toNat_natCast]
    refine ⟨?_, ?_, ?_, ?_, ?_, ?_, ?_, ?_, ?_, ?_⟩ <;> omega

theorem expandYear_digits {ys : List Char} (h : ∀ c ∈ ys, isAsciiDigit c = true) :
    ∀ c ∈ expandYear ys, isAsciiDigit c = true := by
  unfold expandYear
  split
  · intro c hc
    rcases hc with _ | ⟨_, _ | ⟨_, hc⟩⟩
    · decide
    · decide
    · exact h c hc
  · exact h

theorem expandYear_ne_nil {ys : List Char} (h : ys ≠ []) : expandYear ys ≠ [] := by
  unfold expandYear
  split
  · exact List.cons_ne_nil _ _
  · exact h

theorem ts_roundtrip (ys ms ds ts : List Char)
    (hys : ∀ c ∈ ys, isAsciiDigit c = true) (hms : ∀ c ∈ ms, isAsciiDigit c = true)
    (hds : ∀ c ∈ ds, isAsciiDigit c = true) (hts : ∀ c ∈ ts, isAsciiDigit c = true)
    (hys0 : ys ≠ []) (hms0 : ms ≠ []) (hds0 : ds ≠ []) (hlen : ts.length = 4)
    (hy1 : 1 ≤ natOfDigits (expandYear ys)) (hy2 : natOfDigits (expandYear ys) ≤ 9999)
    (hmo1 : 1 ≤ natOfDigits ms) (hmo2 : natOfDigits ms ≤ 12)
    (hd1 : 1 ≤ natOfDigits ds)
    (hd2 : natOfDigits ds ≤ daysInMonth (natOfDigits (expandYear ys)) (natOfDigits ms))
    (hh : natOfDigits (ts.take 2) ≤ 23) (hmi : natOfDigits ((ts.drop 2).take 2) ≤ 59) :
    get_timestamp_for_sorting (ys ++ '.' :: (ms ++ '.' :: (ds ++ '.' :: ts))).asString =
      ⟨natOfDigits (expandYear ys), natOfDigits ms, natOfDigits ds,
       natOfDigits (ts.take 2), natOfDigits ((ts.drop 2).take 2)⟩ := by
  have hdot : ∀ {l : List Char}, (∀ c ∈ l, isAsciiDigit c = true) →
      ∀ c ∈ l, (c == '.') = false :=
    fun hl c hc => digit_beq_eq_false (hl c hc) (by decide)
  have hsplit : splitOnChar '.' (ys ++ '.' :: (ms ++ '.' :: (ds ++ '.' :: ts)))
      = [ys, ms, ds, ts] := by
    rw [splitOnChar_append _ (hdot hys), splitOnChar_append _ (hdot hms),
        splitOnChar_append _ (hdot hds), splitOnChar_eq_single (hdot hts)]
  have htake : ts.take 2 ≠ [] := by
    have h2 : (ts.take 2).length = 2 := by rw [List.length_take]; omega
    intro hnil
    rw [hnil] at h2
    simp at h2
  have htakeD : ∀ c ∈ ts.take 2, isAsciiDigit c = true :=
    fun c hc => hts c (List.mem_of_mem_take hc)
  have hdropN : (ts.drop 2).take 2 ≠ [] := by
    have h2 : ((ts.drop 2).take 2).length = 2 := by
      rw [List.length_take, List.length_drop]; omega
    intro hnil
    rw [hnil] at h2
    simp at h2
  have hdropD : ∀ c ∈ (ts.drop 2).take 2, isAsciiDigit c = true :=
    fun c hc => hts c (List.mem_of_mem_drop (List.mem_of_mem_take hc))
  unfold get_timestamp_for_sorting
  rw [List.toList_asString, hsplit]
  dsimp only
  rw [if_pos (show ts.length ≥ 4 by omega)]
  dsimp only
  rw [pyIntChars_digits (expandYear_ne_nil hys0) (expandYear_digits hys),
      pyIntChars_digits hms0 hms, pyIntChars_digits hds0 hds,
      pyIntChars_digits htake htakeD, pyIntChars_digits hdropN hdropD]
  try dsimp only
  rw [mkDatetime_natCast hy1 hy2 hmo1 hmo2 hd1 hd2 hh hmi]

theorem ts_sentinel (s : String) (h : wellFormedTs s = false) :
    get_timestamp_for_sorting s = sentinel := by
  unfold wellFormedTs at h
  unfold get_timestamp_for_sorting
  rcases hs : splitOnChar '.' s.toList with
    _ | ⟨ys, _ | ⟨ms, _ | ⟨ds2, _ | ⟨tt, _ | ⟨e5, rest⟩⟩⟩⟩⟩ <;> try rfl
  rw [hs] at h
  dsimp only at h ⊢
  rcases hy : pyIntChars (expandYear ys) with _ | y
  · rfl
  rw [hy] at h
  rcases hmo : pyIntChars ms with _ | mo
  · rfl
  rw [hmo] at h
  rcases hdd : pyIntChars ds2 with _ | dd
  · rfl
  rw [hdd] at h
  by_cases hl : tt.length ≥ 4
  · rw [if_pos hl] at h ⊢
    dsimp only at h ⊢
    rcases hhr : pyIntChars (tt.take 2) with _ | hr
    · rfl
    rw [hhr] at h
    rcases hmi2 : pyIntChars ((tt.drop 2).take 2) with _ | mi
    · rfl
    rw [hmi2] at h
    dsimp only at h ⊢
    rcases hmk : mkDatetime y mo dd hr mi with _ | dt
    · rfl
    · rw [hmk] at h
      simp at h
  · rw [if_neg hl] at h ⊢
    dsimp only at h ⊢
    rcases hhr : pyIntChars ['0', '0'] with _ | hr
    · rfl
    rw [hhr] at h
    dsimp only at h ⊢
    rcases hmk : mkDatetime y mo dd hr hr with _ | dt
    · rfl
    · rw [hmk] at h
      simp at h

theorem natOfDigits_expandYear_two {ys : List Char} (h : ys.length = 2) :
    natOfDigits (expandYear ys) = 2000 + natOfDigits ys := by
  match ys, h with
  | [a, b], _ =>
    have h2 : digitVal '2' = 2 := rfl
    have h0 : digitVal '0' = 0 := rfl
    simp [expandYear, natOfDigits, List.foldl, h2, h0]
    omega

/-- **C3** (confirmed): for every valid 4-component timestamp — four
dot-separated all-digit fields with a 4-character `HHMM` field, denoting a
valid calendar instant — `get_timestamp_for_sorting` round-trips the year
(2-character years expanded by prefixing `20`, middle conjunct), month, day,
hour and minute; and for every malformed timestamp (wrong component count,
non-numeric field, or invalid calendar date, i.e. `wellFormedTs` fails) the
result equals the sentinel oldest instant `datetime(1900, 1, 1)`. -/
theorem claim_C3 :
    (∀ ys ms ds ts : List Char,
      (∀ c ∈ ys, isAsciiDigit c = true) → (∀ c ∈ ms, isAsciiDigit c = true) →
      (∀ c ∈ ds, isAsciiDigit c = true) → (∀ c ∈ ts, isAsciiDigit c = true) →
      ys ≠ [] → ms ≠ [] → ds ≠ [] → ts.length = 4 →
      1 ≤ natOfDigits (expandYear ys) → natOfDigits (expandYear ys) ≤ 9999 →
      1 ≤ natOfDigits ms → natOfDigits ms ≤ 12 →
      1 ≤ natOfDigits ds →
      natOfDigits ds ≤ daysInMonth (natOfDigits (expandYear ys)) (natOfDigits ms) →
      natOfDigits (ts.take 2) ≤ 23 → natOfDigits ((ts.drop 2).take 2) ≤ 59 →
      get_timestamp_for_sorting (ys ++ '.' :: (ms ++ '.' :: (ds ++ '.' :: ts))).asString =
        ⟨natOfDigits (expandYear ys), natOfDigits ms, natOfDigits ds,
         natOfDigits (ts.take 2), natOfDigits ((ts.drop 2).take 2)⟩) ∧
    (∀ ys : List Char, ys.length = 2 →
      natOfDigits (expandYear ys) = 2000 + natOfDigits ys) ∧
    (∀ s : String, wellFormedTs s = false → get_timestamp_for_sorting s = sentinel) :=
  ⟨ts_roundtrip, fun _ h => natOfDigits_expandYear_two h, ts_sentinel⟩

/-- Witness for C3 at concrete inputs: the timestamp `2024.1.5.1230`
round-trips to 2024-01-05 12:30 and the malformed `garbage` maps to the
sentinel. -/
theorem claim_C3_witness :
    get_timestamp_for_sorting "2024.1.5.1230" = ⟨2024, 1, 5, 12, 30⟩ ∧
      get_timestamp_for_sorting "garbage" = sentinel := by
  constructor
  · have h := claim_C3.1 ['2', '0', '2', '4'] ['1'] ['5'] ['1', '2', '3', '0']
      (by decide) (by decide) (by decide) (by decide) (by decide) (by decide)
      (by decide) (by decide) (by decide) (by decide) (by decide) (by decide)
      (by decide) (by decide) (by decide) (by decide)
    exact h
  · exact claim_C3.2.2 "garbage" (by decide)

/-- **C4** (corrected): the claim that the app-inlined timestamp parsing
always agrees with `get_timestamp_for_sorting` is false — on a timestamp
whose 4th component has length 2 the script defaults the hour to `00` while
the app reads the first two characters as hour. -/
theorem claim_C4_counterexample :
    speakingTestTimestamp "2024.01.05.12" ≠ get_timestamp_for_sorting "2024.01.05.12" := by
  decide

/-- **C4**, amended: the two parsers compute the same instant for every
timestamp whose 4th dot-separated component does not have length 2 or 3 (in
particular on every `YYYY.MM.DD.HHMM` / `YY.MM.DD.HHMM` form); exactly on 4th
components of length 2–3 the hour defaults diverge. -/
theorem claim_C4 (ts : String) (h : fourthComponentRegular ts = true) :
    speakingTestTimestamp ts = get_timestamp_for_sorting ts := by
  unfold fourthComponentRegular at h
  unfold speakingTestTimestamp get_timestamp_for_sorting
  rcases hs : splitOnChar '.' ts.toList with
    _ | ⟨ys, _ | ⟨ms, _ | ⟨ds2, _ | ⟨tt, _ | ⟨e5, rest⟩⟩⟩⟩⟩ <;> try rfl
  rw [hs] at h
  dsimp only at h ⊢
  simp only [Bool.or_eq_true, decide_eq_true_eq] at h
  rcases h with h | h
  · rw [if_neg (show ¬ tt.length ≥ 2 by omega), if_neg (show ¬ tt.length ≥ 4 by omega),
        if_neg (show ¬ tt.length ≥ 4 by omega)]
  · rw [if_pos (show tt.length ≥ 2 by omega), if_pos (show tt.length ≥ 4 by omega),
        if_pos (show tt.length ≥ 4 by omega)]

/-- Witness for C4's amended statement at a concrete regular timestamp. -/
theorem claim_C4_witness :
    fourthComponentRegular "24.1.5.1230" = true ∧
      speakingTestTimestamp "24.1.5.1230" = get_timestamp_for_sorting "24.1.5.1230" :=
  ⟨by decide, claim_C4 "24.1.5.1230" (by decide)⟩

/-! ## Scoring lemmas -/

theorem le_foldl_max_init (l : List Nat) (a : Nat) : a ≤ l.foldl max a := by
  induction l generalizing a with
  | nil => simp
  | cons x xs ih => exact le_trans (le_max_left a x) (ih (max a x))

theorem le_foldl_max_of_mem {l : List Nat} {x : Nat} (hx : x ∈ l) (a : Nat) :
    x ≤ l.foldl max a := by
  induction l generalizing a with
  | nil => cases hx
  | cons y ys ih =>
    rcases List.mem_cons.mp hx with rfl | hx'
    · exact le_trans (le_max_right a x) (le_foldl_max_init ys (max a x))
    · exact ih hx' (max a y)

theorem sum_le_length_mul {l : List Nat} {M : Nat} (h : ∀ x ∈ l, x ≤ M) :
    l.sum ≤ l.length * M := by
  induction l with
  | nil => simp
  | cons x xs ih =>
    simp only [List.sum_cons, List.length_cons, Nat.succ_mul]
    have h1 := h x (List.mem_cons_self _ _)
    have h2 := ih (fun y hy => h y (List.mem_cons_of_mem _ hy))
    omega

theorem sum_vals_le (vals : List Nat) : vals.sum ≤ vals.length * vals.foldl max 0 :=
  sum_le_length_mul (fun _ hx => le_foldl_max_of_mem hx 0)

theorem pyRound_nonneg {q : ℚ} (h : 0 ≤ q) : 0 ≤ pyRound q := by
  unfold pyRound
  have hf : 0 ≤ ⌊q⌋ := Int.floor_nonneg.mpr h
  dsimp only
  split_ifs <;> omega

theorem pyRound_le_intCast {q : ℚ} {n : ℤ} (h : q ≤ (n : ℚ)) : pyRound q ≤ n := by
  have hf : ⌊q⌋ ≤ n := by
    have h2 := Int.floor_mono h
    rwa [Int.floor_intCast] at h2
  have hfq : (⌊q⌋ : ℚ) ≤ q := Int.floor_le q
  have key : ¬(q - ⌊q⌋ < 1/2) → ⌊q⌋ < n := by
    intro h1
    have hge : (1 : ℚ)/2 ≤ q - ⌊q⌋ := le_of_not_lt h1
    by_contra hc
    push_neg at hc
    have hc' : (n : ℚ) ≤ (⌊q⌋ : ℚ) := by exact_mod_cast hc
    linarith
  unfold pyRound
  dsimp only
  split_ifs with h1 h2 h3
  · exact hf
  · have := key h1
    omega
  · exact hf
  · have := key h1
    omega

theorem pyRound_intCast (n : ℤ) : pyRound ((n : ℚ)) = n := by
  unfold pyRound
  rw [Int.floor_intCast]
  norm_num

theorem pct_bounds (t m : Nat) (ht : t ≤ m) :
    0 ≤ (if m > 0 then pyRound ((t : ℚ) / (m : ℚ) * 100) else 0) ∧
      (if m > 0 then pyRound ((t : ℚ) / (m : ℚ) * 100) else 0) ≤ 100 := by
  split_ifs with hm
  · have hm' : (0 : ℚ) < m := by exact_mod_cast hm
    constructor
    · exact pyRound_nonneg (by positivity)
    · apply pyRound_le_intCast
      rw [div_mul_eq_mul_div, div_le_iff₀ hm']
      have hcast : (t : ℚ) ≤ (m : ℚ) := by exact_mod_cast ht
      push_cast
      nlinarith
  · simp

/-- **C2** (confirmed): on the spec's answer lines
`[(0,5,"10000","a"), (0,0,"01000","a"), (1,5,"10000","b")]`, `calculate_score`
reduces question 0 to its last occurrence (5 superseded by 0), takes the
observed maximum point value 5, and yields
`total=5, max=2*5=10, percentage=round(5/10*100)=50, questionCount=2`. -/
theorem claim_C2 :
    calculate_score [⟨0, 5, "10000", "a"⟩, ⟨0, 0, "01000", "a"⟩, ⟨1, 5, "10000", "b"⟩] =
      ⟨5, 10, 50, 2⟩ := by
  unfold calculate_score
  norm_num [dictInsert]
  have h2 := pyRound_intCast 50
  norm_num at h2
  exact h2

/-- **C10** (confirmed): for every answer sequence `calculate_score` returns
`total_score ≤ max_score` and a percentage in `[0, 100]` (each reduced point
value is bounded by the observed maximum, so the sum over distinct question
numbers is at most `questionCount × max`), and the empty sequence returns
`(0, 0, 0, 0)`. -/
theorem claim_C10 :
    (∀ qs : List Answer,
      (calculate_score qs).total_score ≤ (calculate_score qs).max_score ∧
      0 ≤ (calculate_score qs).percentage ∧ (calculate_score qs).percentage ≤ 100) ∧
    calculate_score [] = ⟨0, 0, 0, 0⟩ := by
  constructor
  · intro qs
    unfold calculate_score
    generalize (qs.foldl (fun m a => dictInsert m a.q_num a.points) []) = d
    by_cases he : d.isEmpty
    · rw [if_pos he]
      simp
    · rw [if_neg he]
      dsimp only
      cases d with
      | nil => simp at he
      | cons p ps =>
        rw [if_neg (show ¬((p :: ps).map (fun p => p.2)).isEmpty = true by simp)]
        have ht : ((p :: ps).map (fun p => p.2)).sum ≤
            (p :: ps).length * ((p :: ps).map (fun p => p.2)).foldl max 0 := by
          have h1 := sum_vals_le ((p :: ps).map fun p => p.2)
          rwa [List.length_map] at h1
        exact ⟨ht, (pct_bounds _ _ ht).1, (pct_bounds _ _ ht).2⟩
  · rfl

/-! ## Question-line regex: loop soundness and completeness -/

theorem isEmpty_eq_false_of_ne_nil {l : List Char} (h : l ≠ []) :
    l.isEmpty = false := by
  cases l with
  | nil => exact absurd rfl h
  | cons _ _ => rfl

theorem isAsciiDigit_eq_false_of_ws {c : Char} (h : isPyWs c = true) :
    isAsciiDigit c = false := by
  simp only [isPyWs, Bool.or_eq_true, beq_iff_eq] at h
  simp only [isAsciiDigit, Bool.and_eq_false_iff, decide_eq_false_iff_not, not_le]
  omega

theorem drop_length_takeWhile (p : Char → Bool) (l : List Char) :
    l.drop (l.takeWhile p).length = l.dropWhile p := by
  induction l with
  | nil => rfl
  | cons c cs ih =>
    by_cases hc : p c
    · rw [List.takeWhile_cons, if_pos hc, List.dropWhile_cons, if_pos hc,
        List.length_cons, List.drop_succ_cons]
      exact ih
    · rw [List.takeWhile_cons, if_neg hc, List.dropWhile_cons, if_neg hc]
      rfl

theorem takeWhile_append_cons {p : Char → Bool} {a : List Char} {c : Char}
    (b : List Char) (ha : ∀ x ∈ a, p x = true) (hc : p c = false) :
    (a ++ c :: b).takeWhile p = a := by
  induction a with
  | nil => simp [List.takeWhile_cons, hc]
  | cons x xs ih =>
    simp [List.takeWhile_cons, ha x (List.mem_cons_self _ _),
      ih (fun y hy => ha y (List.mem_cons_of_mem _ hy))]

theorem all_take_of_le_takeWhile {p : Char → Bool} {l : List Char} {j : Nat}
    (h : j ≤ (l.takeWhile p).length) : ∀ x ∈ l.take j, p x = true := by
  induction l generalizing j with
  | nil => intro x hx; simp at hx
  | cons c cs ih =>
    cases j with
    | zero => intro x hx; simp at hx
    | succ j' =>
      rw [List.takeWhile_cons] at h
      by_cases hc : p c
      · rw [if_pos hc] at h
        simp only [List.length_cons, Nat.succ_le_succ_iff] at h
        intro x hx
        rcases List.mem_cons.mp hx with rfl | hx'
        · exact hc
        · exact ih h x hx'
      · rw [if_neg hc] at h
        simp at h


theorem length_le_takeWhile_of_all_prefix {p : Char → Bool} {a : List Char}
    (b : List Char) (ha : ∀ x ∈ a, p x = true) :
    a.length ≤ ((a ++ b).takeWhile p).length := by
  induction a with
  | nil => simp
  | cons x xs ih =>
    simp only [List.cons_append, List.takeWhile_cons,
      ha x (List.mem_cons_self _ _), if_true, List.length_cons]
    exact Nat.succ_le_succ (ih (fun y hy => ha y (List.mem_cons_of_mem _ hy)))

theorem bLoop_eq_some {rest2 : List Char} {m : Nat} {c : List Char}
    (h : bLoop rest2 m = some c) :
    ∃ j, 1 ≤ j ∧ j ≤ m ∧ c = rest2.drop j ∧ c ≠ [] := by
  induction m with
  | zero => simp [bLoop] at h
  | succ b ih =>
    rw [bLoop] at h
    by_cases he : (rest2.drop (b + 1)).isEmpty
    · rw [if_pos he] at h
      obtain ⟨j, h1, h2, h3, h4⟩ := ih h
      exact ⟨j, h1, Nat.le_succ_of_le h2, h3, h4⟩
    · rw [if_neg he] at h
      have hc := Option.some_inj.mp h
      refine ⟨b + 1, Nat.succ_le_succ (Nat.zero_le _), le_refl _, hc.symm, ?_⟩
      rw [← hc]
      intro hnil
      rw [hnil] at he
      exact he rfl

theorem bLoop_complete {rest2 : List Char} {m j : Nat}
    (h1 : 1 ≤ j) (h2 : j ≤ m) (h3 : rest2.drop j ≠ []) :
    (bLoop rest2 m).isSome = true := by
  induction m with
  | zero => omega
  | succ b ih =>
    rw [bLoop]
    by_cases he : (rest2.drop (b + 1)).isEmpty
    · rw [if_pos he]
      have hnil : rest2.drop (b + 1) = [] := by
        cases hd : rest2.drop (b + 1) with
        | nil => rfl
        | cons _ _ =>
          rw [hd] at he
          simp at he
      have hj : j ≠ b + 1 := fun hj => h3 (hj ▸ hnil)
      exact ih (by omega)
    · rw [if_neg he]
      rfl

theorem aLoop_eq_some {rest : List Char} {m : Nat} {g : List Char × List Char}
    (h : aLoop rest m = some g) :
    ∃ j, 1 ≤ j ∧ j ≤ m ∧ g.1 = rest.take j ∧
      bLoop (rest.drop j) (maxWsLen (rest.drop j)) = some g.2 := by
  induction m with
  | zero => simp [aLoop] at h
  | succ a ih =>
    rw [aLoop] at h
    cases hb : bLoop (rest.drop (a + 1)) (maxWsLen (rest.drop (a + 1))) with
    | none =>
      rw [hb] at h
      dsimp only at h
      obtain ⟨j, h1, h2, h3, h4⟩ := ih h
      exact ⟨j, h1, Nat.le_succ_of_le h2, h3, h4⟩
    | some c =>
      rw [hb] at h
      dsimp only at h
      have hg := Option.some_inj.mp h
      refine ⟨a + 1, Nat.succ_le_succ (Nat.zero_le _), le_refl _, ?_, ?_⟩
      · rw [← hg]
      · rw [← hg]
        exact hb

theorem aLoop_complete {rest : List Char} {m j : Nat}
    (h1 : 1 ≤ j) (h2 : j ≤ m)
    (h3 : (bLoop (rest.drop j) (maxWsLen (rest.drop j))).isSome = true) :
    (aLoop rest m).isSome = true := by
  induction m with
  | zero => omega
  | succ a ih =>
    rw [aLoop]
    cases hb : bLoop (rest.drop (a + 1)) (maxWsLen (rest.drop (a + 1))) with
    | none =>
      dsimp only
      have hj : j ≠ a + 1 := by
        intro hj
        subst hj
        rw [hb] at h3
        simp at h3
      exact ih (by omega)
    | some c => rfl

theorem wLoop_eq_some {u : List Char} {m : Nat} {g : List Char × List Char}
    (h : wLoop u m = some g) :
    ∃ j, 1 ≤ j ∧ j ≤ m ∧ aLoop (u.drop j) (maxDsLen (u.drop j)) = some g := by
  induction m with
  | zero => simp [wLoop] at h
  | succ w ih =>
    rw [wLoop] at h
    cases ha : aLoop (u.drop (w + 1)) (maxDsLen (u.drop (w + 1))) with
    | none =>
      rw [ha] at h
      dsimp only at h
      obtain ⟨j, h1, h2, h3⟩ := ih h
      exact ⟨j, h1, Nat.le_succ_of_le h2, h3⟩
    | some r =>
      rw [ha] at h
      dsimp only at h
      exact ⟨w + 1, Nat.succ_le_succ (Nat.zero_le _), le_refl _, by rw [ha, h]⟩

theorem wLoop_complete {u : List Char} {m j : Nat}
    (h1 : 1 ≤ j) (h2 : j ≤ m)
    (h3 : (aLoop (u.drop j) (maxDsLen (u.drop j))).isSome = true) :
    (wLoop u m).isSome = true := by
  induction m with
  | zero => omega
  | succ w ih =>
    rw [wLoop]
    cases ha : aLoop (u.drop (w + 1)) (maxDsLen (u.drop (w + 1))) with
    | none =>
      dsimp only
      have hj : j ≠ w + 1 := by
        intro hj
        subst hj
        rw [ha] at h3
        simp at h3
      exact ih (by omega)
    | some r => rfl

theorem take_ne_nil_of {l : List Char} {j : Nat} (h1 : 1 ≤ j) (h2 : j ≤ l.length) :
    l.take j ≠ [] := by
  intro hnil
  have hlen := congrArg List.length hnil
  simp only [List.length_take, List.length_nil] at hlen
  omega

theorem matchTail_isSome_iff (u : List Char) :
    (matchTail u).isSome = true ↔ TailMatch u := by
  constructor
  · intro h
    rw [Option.isSome_iff_exists] at h
    obtain ⟨g, hg⟩ := h
    unfold matchTail at hg
    obtain ⟨j, hj1, hj2, ha⟩ := wLoop_eq_some hg
    obtain ⟨k, hk1, hk2, hgk, hb⟩ := aLoop_eq_some ha
    obtain ⟨m, hm1, hm2, hcm, hcne⟩ := bLoop_eq_some hb
    unfold maxWsLen at hj2 hm2
    unfold maxDsLen at hk2
    have hjlen : j ≤ u.length :=
      le_trans hj2 (List.takeWhile_prefix _).length_le
    have hklen : k ≤ (u.drop j).length :=
      le_trans hk2 (List.takeWhile_prefix _).length_le
    have hmlen : m ≤ ((u.drop j).drop k).length :=
      le_trans hm2 (List.takeWhile_prefix _).length_le
    refine ⟨u.take j, (u.drop j).take k, ((u.drop j).drop k).take m,
      ((u.drop j).drop k).drop m, ?_, ?_, ?_, ?_, ?_, ?_, ?_, ?_⟩
    · rw [List.take_append_drop, List.take_append_drop, List.take_append_drop]
    · exact take_ne_nil_of hj1 hjlen
    · exact all_take_of_le_takeWhile hj2
    · exact take_ne_nil_of hk1 hklen
    · exact all_take_of_le_takeWhile hk2
    · exact take_ne_nil_of hm1 hmlen
    · exact all_take_of_le_takeWhile hm2
    · rw [← hcm]
      exact hcne
  · rintro ⟨w, a, b, c, hequ, hw, hwa, ha, haa, hb, hba, hc⟩
    unfold matchTail
    apply wLoop_complete (j := w.length)
    · exact List.length_pos.mpr hw
    · unfold maxWsLen
      rw [hequ]
      exact length_le_takeWhile_of_all_prefix _ hwa
    · rw [hequ, List.drop_left]
      apply aLoop_complete (j := a.length)
      · exact List.length_pos.mpr ha
      · unfold maxDsLen
        exact length_le_takeWhile_of_all_prefix _ haa
      · rw [List.drop_left]
        apply bLoop_complete (j := b.length)
        · exact List.length_pos.mpr hb
        · unfold maxWsLen
          exact length_le_takeWhile_of_all_prefix _ hba
        · rw [List.drop_left]
          exact hc

theorem ne_nil_of_isEmpty_eq_false {l : List Char} (h : l.isEmpty = false) :
    l ≠ [] := by
  cases l with
  | nil => simp at h
  | cons _ _ => exact List.cons_ne_nil _ _

theorem listIsPrefix_append (p t : List Char) : listIsPrefix p (p ++ t) = true := by
  induction p with
  | nil => rfl
  | cons c cs ih => simp [listIsPrefix, ih]

theorem eq_append_drop_of_listIsPrefix {p l : List Char}
    (h : listIsPrefix p l = true) : l = p ++ l.drop p.length := by
  induction p generalizing l with
  | nil => simp
  | cons c cs ih =>
    cases l with
    | nil => simp [listIsPrefix] at h
    | cons x xs =>
      simp only [listIsPrefix, Bool.and_eq_true, beq_iff_eq] at h
      obtain ⟨h1, h2⟩ := h
      subst h1
      simp only [List.cons_append, List.length_cons, List.drop_succ_cons,
        List.cons.injEq, true_and]
      exact ih h2

theorem frontParse_some {l : List Char} {q p : Nat} {r6 : List Char}
    (h : frontParse l = some (q, p, r6)) :
    ∃ w1 d1 w2 d2 w3 : List Char,
      l = "Question".toList ++
        (w1 ++ (d1 ++ ':' :: (w2 ++ (d2 ++ (w3 ++ '=' :: r6))))) ∧
      w1 ≠ [] ∧ (∀ x ∈ w1, isPyWs x = true) ∧
      d1 ≠ [] ∧ (∀ x ∈ d1, isAsciiDigit x = true) ∧
      w2 ≠ [] ∧ (∀ x ∈ w2, isPyWs x = true) ∧
      d2 ≠ [] ∧ (∀ x ∈ d2, isAsciiDigit x = true) ∧
      w3 ≠ [] ∧ (∀ x ∈ w3, isPyWs x = true) ∧
      q = natOfDigits d1 ∧ p = natOfDigits d2 := by
  unfold frontParse at h
  by_cases hpre : listIsPrefix "Question".toList l = true
  case neg => rw [if_neg hpre] at h; simp at h
  rw [if_pos hpre] at h
  dsimp only at h
  by_cases hemp : (((l.drop 8).takeWhile isPyWs).isEmpty ||
      (((l.drop 8).drop ((l.drop 8).takeWhile isPyWs).length).takeWhile
        isAsciiDigit).isEmpty) = true
  case pos => rw [if_pos hemp] at h; simp at h
  rw [if_neg hemp] at h
  rw [Bool.not_eq_true, Bool.or_eq_false_iff] at hemp
  split at h
  rotate_left
  · simp at h
  rename_i ch r3 hr2
  by_cases hch : ch = ':'
  case neg => rw [if_neg hch] at h; simp at h
  subst hch
  rw [if_pos rfl] at h
  try dsimp only at h
  by_cases hemp2 : ((r3.takeWhile isPyWs).isEmpty ||
      ((r3.drop (r3.takeWhile isPyWs).length).takeWhile isAsciiDigit).isEmpty ||
      (((r3.drop (r3.takeWhile isPyWs).length).drop
          ((r3.drop (r3.takeWhile isPyWs).length).takeWhile
            isAsciiDigit).length).takeWhile isPyWs).isEmpty) = true
  case pos => rw [if_pos hemp2] at h; simp at h
  rw [if_neg hemp2] at h
  rw [Bool.not_eq_true, Bool.or_eq_false_iff, Bool.or_eq_false_iff] at hemp2
  split at h
  rotate_left
  · simp at h
  rename_i ch2 r6c hr6
  by_cases hch2 : ch2 = '='
  case neg => rw [if_neg hch2] at h; simp at h
  subst hch2
  rw [if_pos rfl] at h
  rw [Option.some_inj] at h
  have hq : natOfDigits ((( l.drop 8).drop
      ((l.drop 8).takeWhile isPyWs).length).takeWhile isAsciiDigit) = q :=
    congrArg Prod.fst h
  have hp : natOfDigits ((r3.drop (r3.takeWhile isPyWs).length).takeWhile
      isAsciiDigit) = p := congrArg (fun x => x.2.1) h
  have hr : r6c = r6 := congrArg (fun x => x.2.2) h
  refine ⟨(l.drop 8).takeWhile isPyWs,
    ((l.drop 8).drop ((l.drop 8).takeWhile isPyWs).length).takeWhile isAsciiDigit,
    r3.takeWhile isPyWs,
    (r3.drop (r3.takeWhile isPyWs).length).takeWhile isAsciiDigit,
    ((r3.drop (r3.takeWhile isPyWs).length).drop
      ((r3.drop (r3.takeWhile isPyWs).length).takeWhile isAsciiDigit).length).takeWhile
        isPyWs, ?_, ?_, ?_, ?_, ?_, ?_, ?_, ?_, ?_, ?_, ?_, ?_, ?_⟩
  · have e0 : l = "Question".toList ++ l.drop 8 := by
      have e := eq_append_drop_of_listIsPrefix hpre
      rwa [show ("Question".toList).length = 8 from rfl] at e
    conv_lhs => rw [e0]
    congr 1
    conv_lhs =>
      rw [← List.takeWhile_append_dropWhile isPyWs (l.drop 8),
        ← drop_length_takeWhile isPyWs (l.drop 8)]
    congr 1
    conv_lhs =>
      rw [← List.takeWhile_append_dropWhile isAsciiDigit
        ((l.drop 8).drop ((l.drop 8).takeWhile isPyWs).length),
        ← drop_length_takeWhile isAsciiDigit
        ((l.drop 8).drop ((l.drop 8).takeWhile isPyWs).length)]
    congr 1
    rw [hr2]
    congr 1
    conv_lhs =>
      rw [← List.takeWhile_append_dropWhile isPyWs r3,
        ← drop_length_takeWhile isPyWs r3]
    congr 1
    conv_lhs =>
      rw [← List.takeWhile_append_dropWhile isAsciiDigit
        (r3.drop (r3.takeWhile isPyWs).length),
        ← drop_length_takeWhile isAsciiDigit
        (r3.drop (r3.takeWhile isPyWs).length)]
    congr 1
    conv_lhs =>
      rw [← List.takeWhile_append_dropWhile isPyWs
        ((r3.drop (r3.takeWhile isPyWs).length).drop
          ((r3.drop (r3.takeWhile isPyWs).length).takeWhile isAsciiDigit).length),
        ← drop_length_takeWhile isPyWs
        ((r3.drop (r3.takeWhile isPyWs).length).drop
          ((r3.drop (r3.takeWhile isPyWs).length).takeWhile isAsciiDigit).length)]
    congr 1
    rw [hr6, hr]
  · exact ne_nil_of_isEmpty_eq_false hemp.1
  · exact fun x hx => List.mem_takeWhile_imp hx
  · exact ne_nil_of_isEmpty_eq_false hemp.2
  · exact fun x hx => List.mem_takeWhile_imp hx
  · exact ne_nil_of_isEmpty_eq_false hemp2.1.1
  · exact fun x hx => List.mem_takeWhile_imp hx
  · exact ne_nil_of_isEmpty_eq_false hemp2.1.2
  · exact fun x hx => List.mem_takeWhile_imp hx
  · exact ne_nil_of_isEmpty_eq_false hemp2.2
  · exact fun x hx => List.mem_takeWhile_imp hx
  · exact hq.symm
  · exact hp.symm

theorem takeWhile_ws_before_digits {w d rest : List Char}
    (hwa : ∀ x ∈ w, isPyWs x = true) (hd : d ≠ [])
    (hda : ∀ x ∈ d, isAsciiDigit x = true) :
    (w ++ (d ++ rest)).takeWhile isPyWs = w := by
  rcases d with _ | ⟨c, dt⟩
  · exact absurd rfl hd
  rw [List.cons_append]
  exact takeWhile_append_cons _ hwa
    (isPyWs_eq_false_of_digit (hda c (List.mem_cons_self _ _)))

theorem takeWhile_digits_before_ws {d w rest : List Char}
    (hda : ∀ x ∈ d, isAsciiDigit x = true) (hw : w ≠ [])
    (hwa : ∀ x ∈ w, isPyWs x = true) :
    (d ++ (w ++ rest)).takeWhile isAsciiDigit = d := by
  rcases w with _ | ⟨c, wt⟩
  · exact absurd rfl hw
  rw [List.cons_append]
  exact takeWhile_append_cons _ hda
    (isAsciiDigit_eq_false_of_ws (hwa c (List.mem_cons_self _ _)))

theorem frontParse_complete {w1 d1 w2 d2 w3 tail : List Char}
    (hw1 : w1 ≠ []) (hw1a : ∀ x ∈ w1, isPyWs x = true)
    (hd1 : d1 ≠ []) (hd1a : ∀ x ∈ d1, isAsciiDigit x = true)
    (hw2 : w2 ≠ []) (hw2a : ∀ x ∈ w2, isPyWs x = true)
    (hd2 : d2 ≠ []) (hd2a : ∀ x ∈ d2, isAsciiDigit x = true)
    (hw3 : w3 ≠ []) (hw3a : ∀ x ∈ w3, isPyWs x = true) :
    frontParse ("Question".toList ++
        (w1 ++ (d1 ++ ':' :: (w2 ++ (d2 ++ (w3 ++ '=' :: tail)))))) =
      some (natOfDigits d1, natOfDigits d2, tail) := by
  unfold frontParse
  rw [if_pos (listIsPrefix_append _ _)]
  dsimp only
  rw [show ∀ X : List Char, ("Question".toList ++ X).drop 8 = X from fun _ => rfl]
  rw [takeWhile_ws_before_digits hw1a hd1 hd1a, List.drop_left,
    takeWhile_append_cons _ hd1a (show isAsciiDigit ':' = false by decide),
    isEmpty_eq_false_of_ne_nil hw1, isEmpty_eq_false_of_ne_nil hd1,
    Bool.or_false]
  rw [if_neg (by decide : ¬(false = true))]
  rw [List.drop_left]
  dsimp only
  rw [if_pos rfl]
  try dsimp only
  rw [takeWhile_ws_before_digits hw2a hd2 hd2a, List.drop_left,
    takeWhile_digits_before_ws hd2a hw3 hw3a, List.drop_left,
    takeWhile_append_cons _ hw3a (show isPyWs '=' = false by decide),
    isEmpty_eq_false_of_ne_nil hw2, isEmpty_eq_false_of_ne_nil hd2,
    isEmpty_eq_false_of_ne_nil hw3, Bool.or_false, Bool.or_false]
  rw [if_neg (by decide : ¬(false = true))]
  rw [List.drop_left]
  try dsimp only
  rw [if_pos rfl]

theorem parseQuestionLine_isSome_iff (line : String) :
    ((parseQuestionLine line).isSome = true) ↔ regexMatches line := by
  constructor
  · intro h
    unfold parseQuestionLine at h
    dsimp only at h
    by_cases hpre : listIsPrefix "Question".toList (stripWs line.toList) = true
    case neg => rw [if_neg hpre] at h; simp at h
    rw [if_pos hpre] at h
    cases hf : frontParse (stripWs line.toList) with
    | none => rw [hf] at h; simp at h
    | some g =>
      obtain ⟨q, p, r6⟩ := g
      rw [hf] at h
      dsimp only at h
      cases hm : matchTail r6 with
      | none => rw [hm] at h; simp at h
      | some g2 =>
        obtain ⟨w1, d1, w2, d2, w3, heqp, hw1, hw1a, hd1, hd1a, hw2, hw2a,
          hd2, hd2a, hw3, hw3a, hqv, hpv⟩ := frontParse_some hf
        refine ⟨w1, d1, w2, d2, w3, r6, heqp, hw1, hw1a, hd1, hd1a,
          hw2, hw2a, hd2, hd2a, hw3, hw3a, ?_⟩
        rw [← matchTail_isSome_iff, hm]
        rfl
  · rintro ⟨w1, d1, w2, d2, w3, tail, heq, hw1, hw1a, hd1, hd1a, hw2, hw2a,
      hd2, hd2a, hw3, hw3a, htail⟩
    unfold parseQuestionLine
    dsimp only
    rw [heq]
    rw [if_pos (listIsPrefix_append _ _)]
    rw [frontParse_complete hw1 hw1a hd1 hd1a hw2 hw2a hd2 hd2a hw3 hw3a]
    dsimp only
    have hms : (matchTail tail).isSome = true := (matchTail_isSome_iff tail).mpr htail
    rw [Option.isSome_iff_exists] at hms
    obtain ⟨g2, hg2⟩ := hms
    obtain ⟨g3, g4⟩ := g2
    rw [hg2]
    rfl

/-- **C8** (corrected): the claim that an Answer entry is produced iff the
line has the shape `Question <int>: <int> = <5 space-separated 0/1 tokens>
<label>` is false — this concrete non-headed body has a question line whose
"binary" section is the single token `2`, yet an entry is produced. -/
theorem claim_C8_counterexample :
    parse_incomplete_test "Question 1: 5 = 2 x" = ([⟨1, 5, "2", "x"⟩], false) ∧
      specAnswerShape "Question 1: 5 = 2 x" = false := by
  constructor <;> rfl

/-- **C8**, amended: on a non-Headed body each stripped line produces an
Answer entry iff it matches the source regex
`Question\s+(\d+):\s+(\d+)\s+=\s+([\d\s]+)\s+(.+)` (declaratively:
`regexMatches` — the third group is any nonempty digit/whitespace run, not
necessarily 5 one-hot 0/1 tokens); all other lines are ignored rather than
raising an error; the documented 5-token example line still parses. -/
theorem claim_C8 :
    (∀ line : String, (parseQuestionLine line).isSome = true ↔ regexMatches line) ∧
    (∀ content : String, isHeadedStr content = false →
      parse_incomplete_test content = ((pyLines content).filterMap parseQuestionLine, false)) ∧
    parseQuestionLine "Question 0: 5 = 1 0 0 0 0 intro" =
      some ⟨0, 5, "1 0 0 0 0", "intro"⟩ := by
  refine ⟨parseQuestionLine_isSome_iff, ?_, by rfl⟩
  intro content hc
  unfold parse_incomplete_test
  rw [hc]
  rfl

/-- Witness for C8's amended statement: a body with one stray line and one
matching line decodes to exactly that line's entry. -/
theorem claim_C8_witness :
    parse_incomplete_test "stray\nQuestion 1: 5 = 1 0 0 0 0 a" =
      ([⟨1, 5, "1 0 0 0 0", "a"⟩], false) := by
  rw [claim_C8.2.1 _ (by rfl)]
  rfl

/-! ## Header synthesis: C6 lemmas -/

theorem hasSubstr_of_append (n x y : List Char) :
    hasSubstr n (x ++ (n ++ y)) = true := by
  induction x with
  | nil =>
    rw [List.nil_append]
    cases hny : n ++ y with
    | nil =>
      have hn : n = [] := (List.append_eq_nil.mp hny).1
      rw [hn]
      rfl
    | cons c rest =>
      show (listIsPrefix n (c :: rest) || hasSubstr n rest) = true
      rw [← hny, listIsPrefix_append]
      simp
  | cons c cs ih =>
    rw [List.cons_append]
    show (listIsPrefix n (c :: (cs ++ (n ++ y))) ||
      hasSubstr n (cs ++ (n ++ y))) = true
    rw [ih]
    simp

theorem splitOnChar_ne_nil (sep : Char) (l : List Char) :
    splitOnChar sep l ≠ [] := by
  cases l with
  | nil => simp [splitOnChar]
  | cons c rest =>
    unfold splitOnChar
    by_cases hc : (c == sep) = true
    · rw [if_pos hc]
      exact List.cons_ne_nil _ _
    · rw [if_neg hc]
      cases splitOnChar sep rest with
      | nil => exact List.cons_ne_nil _ _
      | cons g gs => exact List.cons_ne_nil _ _

theorem splitOnChar_concat_sep (sep : Char) (y : List Char) :
    splitOnChar sep (y ++ [sep]) = splitOnChar sep y ++ [[]] := by
  induction y with
  | nil => simp [splitOnChar]
  | cons c cs ih =>
    by_cases hc : (c == sep) = true
    · simp only [List.cons_append, splitOnChar, List.append_eq, hc, if_true, ih]
    · simp only [List.cons_append, splitOnChar, List.append_eq, hc, if_false, ih]
      cases hcs : splitOnChar sep cs with
      | nil => exact absurd hcs (splitOnChar_ne_nil sep cs)
      | cons g gs => simp [hcs]

theorem splitOnChar_append_sep (sep : Char) (h orig : List Char) :
    splitOnChar sep (h ++ sep :: orig) =
      splitOnChar sep h ++ splitOnChar sep orig := by
  induction h with
  | nil => simp [splitOnChar]
  | cons c cs ih =>
    by_cases hc : (c == sep) = true
    · simp only [List.cons_append, splitOnChar, List.append_eq, hc, if_true, ih]
    · simp only [List.cons_append, splitOnChar, List.append_eq, hc, if_false, ih]
      cases hcs : splitOnChar sep cs with
      | nil => exact absurd hcs (splitOnChar_ne_nil sep cs)
      | cons g gs => simp [hcs]

theorem isHeadedStr_append_eqLine (pre post : String) :
    isHeadedStr (pre ++ (eqLine ++ post)) = true := by
  unfold isHeadedStr strContains
  have h1 : (pre ++ (eqLine ++ post)).toList =
      pre.toList ++ (List.replicate 20 '=' ++
        (List.replicate 47 '=' ++ post.toList)) := by
    show pre.toList ++ (List.replicate 67 '=' ++ post.toList) = _
    rw [show (List.replicate 67 '=' : List Char) =
      List.replicate 20 '=' ++ List.replicate 47 '=' from by
        rw [← List.replicate_add]]
    rw [List.append_assoc]
  rw [List.toList_asString, h1, hasSubstr_of_append]
  rfl

/-- **C6** (confirmed): header synthesis yields a body that `isHeaded`
reports as headed (it contains the 67-`=` separator, hence the 20-`=`
marker); the synthesized content is exactly the header followed by the
original content, so the original Answer lines appear after the header
unchanged and — since the header ends with a newline — as exactly the
trailing lines of the new body, in their original order. -/
theorem claim_C6 (ofn oc sid : String) (tq ms ts : Nat) (pct : ℤ)
    (scale : List (Nat × Nat × String)) :
    isHeadedStr (generate_complete_report ofn oc sid tq ms ts pct scale) = true ∧
    generate_complete_report ofn oc sid tq ms ts pct scale =
      synthesizeHeader ofn sid tq ms ts pct scale ++ oc ∧
    pyLines (generate_complete_report ofn oc sid tq ms ts pct scale) =
      (pyLines (synthesizeHeader ofn sid tq ms ts pct scale)).dropLast ++
        pyLines oc := by
  refine ⟨?_, rfl, ?_⟩
  · have hshape : generate_complete_report ofn oc sid tq ms ts pct scale =
        (ofn ++ "\n" ++ studentLine sid) ++
          (eqLine ++ (("\n" ++ summaryLine tq ms ts pct ++ eqLine ++ "\n" ++
            scaleLegend scale) ++ ("\n" ++ oc))) := by
      unfold generate_complete_report synthesizeHeader synthHeaderBody
      simp only [String.append_assoc]
    rw [hshape]
    exact isHeadedStr_append_eqLine _ _
  · unfold generate_complete_report pyLines
    have hl : (synthesizeHeader ofn sid tq ms ts pct scale ++ oc).toList =
        (synthHeaderBody ofn sid tq ms ts pct scale).toList ++
          '\n' :: oc.toList := by
      show ((synthHeaderBody ofn sid tq ms ts pct scale).toList ++
        "\n".toList) ++ oc.toList = _
      rw [List.append_assoc]
      rfl
    rw [hl, splitOnChar_append_sep]
    have hh : (synthesizeHeader ofn sid tq ms ts pct scale).toList =
        (synthHeaderBody ofn sid tq ms ts pct scale).toList ++ ['\n'] := rfl
    rw [hh, splitOnChar_concat_sep, List.map_append, List.map_append]
    simp

/-! ## Class Summary Compiler: lines, the Student marker, and C9 -/

theorem splitOnChar_head_segment {sep : Char} {l g : List Char}
    {gs : List (List Char)} (h : splitOnChar sep l = g :: gs) :
    ∃ y, l = g ++ y := by
  induction l generalizing g gs with
  | nil =>
    rw [show splitOnChar sep [] = [[]] from rfl] at h
    injection h with hg hgs
    exact ⟨[], by rw [← hg]; rfl⟩
  | cons c cs ih =>
    unfold splitOnChar at h
    by_cases hc : (c == sep) = true
    · rw [if_pos hc] at h
      injection h with hg hgs
      exact ⟨c :: cs, by rw [← hg]; rfl⟩
    · rw [if_neg hc] at h
      cases hcs : splitOnChar sep cs with
      | nil => exact absurd hcs (splitOnChar_ne_nil sep cs)
      | cons g0 gs0 =>
        rw [hcs] at h
        injection h with hg hgs
        obtain ⟨y, hy⟩ := ih hcs
        exact ⟨y, by rw [← hg, hy]; rfl⟩

theorem mem_splitOnChar_segment {sep : Char} {l g : List Char}
    (h : g ∈ splitOnChar sep l) : ∃ x y, l = x ++ (g ++ y) := by
  induction l generalizing g with
  | nil =>
    rw [show splitOnChar sep [] = [[]] from rfl] at h
    rw [List.mem_singleton] at h
    exact ⟨[], [], by rw [h]; rfl⟩
  | cons c cs ih =>
    unfold splitOnChar at h
    by_cases hc : (c == sep) = true
    · rw [if_pos hc] at h
      rw [List.mem_cons] at h
      rcases h with h | h
      · exact ⟨[], c :: cs, by rw [h]; rfl⟩
      · obtain ⟨x, y, hxy⟩ := ih h
        exact ⟨c :: x, y, by rw [hxy]; rfl⟩
    · rw [if_neg hc] at h
      cases hcs : splitOnChar sep cs with
      | nil => exact absurd hcs (splitOnChar_ne_nil sep cs)
      | cons g0 gs0 =>
        rw [hcs] at h
        rw [List.mem_cons] at h
        rcases h with h | h
        · obtain ⟨y, hy⟩ := splitOnChar_head_segment hcs
          exact ⟨[], y, by rw [h, hy]; rfl⟩
        · have hmem : g ∈ splitOnChar sep cs := by
            rw [hcs]
            exact List.mem_cons_of_mem _ h
          obtain ⟨x, y, hxy⟩ := ih hmem
          exact ⟨c :: x, y, by rw [hxy]; rfl⟩

/-- A line of `content` that starts with `pat` witnesses `pat in content`. -/
theorem strContains_of_line_marker {pat content line : String}
    (hmem : line ∈ pyLines content)
    (hpre : listIsPrefix pat.toList line.toList = true) :
    strContains pat content = true := by
  unfold pyLines at hmem
  obtain ⟨g, hg, hgl⟩ := List.mem_map.mp hmem
  have hgl2 : line.toList = g := by rw [← hgl, List.toList_asString]
  obtain ⟨x, y, hxy⟩ := mem_splitOnChar_segment hg
  have hsplit := eq_append_drop_of_listIsPrefix hpre
  unfold strContains
  rw [hxy, ← hgl2, hsplit, List.append_assoc]
  exact hasSubstr_of_append _ _ _

theorem headerLineStep_student_id {acc : HeaderFields} {line : String}
    (h : listIsPrefix "Student:".toList line.toList = false) :
    (headerLineStep acc line).student_id = acc.student_id := by
  unfold headerLineStep
  rw [h]
  by_cases h2 :
      (strContains "Total Questions:" line && strContains "Score:" line) = true
  · rw [if_neg (by decide), if_pos h2]
  · rw [if_neg (by decide), if_neg h2]

theorem foldl_headerLineStep_student_id {lines : List String}
    (h : ∀ line ∈ lines, listIsPrefix "Student:".toList line.toList = false) :
    ∀ acc : HeaderFields,
      (lines.foldl headerLineStep acc).student_id = acc.student_id := by
  induction lines with
  | nil => intro acc; rfl
  | cons l ls ih =>
    intro acc
    rw [List.foldl_cons,
      ih (fun x hx => h x (List.mem_cons_of_mem _ hx))]
    exact headerLineStep_student_id (h l (List.mem_cons_self _ _))

/-- Without a `Student:` marker anywhere in the body, the header loop leaves
the student id unset. -/
theorem extractHeaderFields_student_id_none {content : String}
    (h : strContains "Student:" content = false) :
    (extractHeaderFields content).student_id = none := by
  have hall : ∀ line ∈ pyLines content,
      listIsPrefix "Student:".toList line.toList = false := by
    intro line hline
    cases hb : listIsPrefix "Student:".toList line.toList with
    | false => rfl
    | true =>
      rw [strContains_of_line_marker hline hb] at h
      exact absurd h (by decide)
  exact foldl_headerLineStep_student_id hall _

theorem strContains_student_eq_false {content : String}
    (h : isHeadedStr content = false) :
    strContains "Student:" content = false := by
  unfold isHeadedStr at h
  simp only [Bool.or_eq_false_iff] at h
  exact h.2

/-- A file contributes no entry when, whenever it passes the name filter, is
readable and is Headed, its name yields no usable (nonempty) timestamp: the
filename match fails or the empty-timestamp guard rejects the record. -/
theorem collectStep_eq_of_no_qualifying {readFile : String → Option String}
    {acc : List SummaryEntry} {f : String}
    (h : passesCompileFilter f = true →
      ∀ c, readFile f = some c → isHeadedStr c = true →
      ∀ info, extract_info_from_filename f = some info →
      info.2.2.isEmpty = true) :
    collectStep readFile acc f = acc := by
  unfold collectStep
  by_cases hfil : passesCompileFilter f = true
  · rw [if_pos hfil]
    cases hr : readFile f with
    | none => rfl
    | some c =>
      dsimp only
      by_cases hhead : isHeadedStr c = true
      · cases hsid : (extractHeaderFields c).student_id with
        | none => rfl
        | some sid =>
          cases hinfo : extract_info_from_filename f with
          | none => rfl
          | some info =>
            have hts : info.2.2.isEmpty = true := h hfil c hr hhead info hinfo
            dsimp only
            rw [hts, Bool.not_true, Bool.and_false, if_neg (by decide)]
      · have hsid : (extractHeaderFields c).student_id = none :=
          extractHeaderFields_student_id_none
            (strContains_student_eq_false (Bool.eq_false_iff.mpr hhead))
        rw [hsid]
  · rw [if_neg hfil]

theorem foldl_collectStep_eq {readFile : String → Option String} :
    ∀ listing : List String,
      (∀ f ∈ listing, passesCompileFilter f = true →
        ∀ c, readFile f = some c → isHeadedStr c = true →
        ∀ info, extract_info_from_filename f = some info →
        info.2.2.isEmpty = true) →
      ∀ acc, listing.foldl (collectStep readFile) acc = acc := by
  intro listing
  induction listing with
  | nil => intro _ acc; rfl
  | cons f fs ih =>
    intro h acc
    rw [List.foldl_cons,
      collectStep_eq_of_no_qualifying (h f (List.mem_cons_self _ _))]
    exact ih (fun x hx => h x (List.mem_cons_of_mem _ hx)) acc

theorem collectEntries_eq_nil {listing : List String}
    {readFile : String → Option String}
    (h : ∀ f ∈ listing, passesCompileFilter f = true →
      ∀ c, readFile f = some c → isHeadedStr c = true →
      ∀ info, extract_info_from_filename f = some info →
      info.2.2.isEmpty = true) :
    collectEntries listing readFile = [] :=
  foldl_collectStep_eq listing h []

/-- C9: when the class directory contains no qualifying record — no listed
file that passes the name filter (right prefix/suffix, not in an
unprocessed/quarantine naming state), is readable, is Headed, and whose name
parses to a usable (nonempty) timestamp — the Class Summary Compiler writes
no file and returns a count of zero. -/
theorem claim_C9 (class_number today : String) (listing : List String)
    (readFile : String → Option String)
    (h : ∀ f ∈ listing, passesCompileFilter f = true →
      ∀ c, readFile f = some c → isHeadedStr c = true →
      ∀ info, extract_info_from_filename f = some info →
      info.2.2.isEmpty = true) :
    compile_class_summary class_number listing readFile today = (none, 0) := by
  unfold compile_class_summary
  rw [collectEntries_eq_nil h]

theorem claim_C9_witness :
    compile_class_summary "5"
      ["SpeakingTest_5_3.txt", "SpeakingTest_5_3_24.01.01.1200.txt",
       "notes.txt"]
      (fun f => if f = "SpeakingTest_5_3.txt" then some "Student: 7"
        else if f = "SpeakingTest_5_3_24.01.01.1200.txt"
          then some "Question 1: 5 = 1 0 1 0 0 a" else none)
      "25.01.01" = (none, 0) := by
  apply claim_C9
  intro f hf hfil c hc hhead info hinfo
  rcases List.mem_cons.mp hf with rfl | hf2
  · rw [show extract_info_from_filename "SpeakingTest_5_3.txt" = none from
      by decide] at hinfo
    exact Option.noConfusion hinfo
  · rcases List.mem_cons.mp hf2 with rfl | hf3
    · have hc2 : some "Question 1: 5 = 1 0 1 0 0 a" = some c := hc
      injection hc2 with hce
      rw [← hce] at hhead
      exact absurd hhead (by decide)
    · rcases List.mem_cons.mp hf3 with rfl | hf4
      · exact absurd hfil (by decide)
      · exact absurd hf4 (List.not_mem_nil f)

/-! ## Header extraction on a Student line: C7 -/

theorem pyReplaceF_no_head (c0 : Char) (ps repl : List Char) :
    ∀ (fuel : Nat) (l : List Char), (∀ c ∈ l, (c == c0) = false) →
      pyReplaceF (c0 :: ps) repl fuel l = l := by
  intro fuel
  induction fuel with
  | zero =>
    intro l h
    cases l with
    | nil => rfl
    | cons c cs => rfl
  | succ fuel ih =>
    intro l h
    cases l with
    | nil => rfl
    | cons c cs =>
      have hc : (c == c0) = false := h c (List.mem_cons_self _ _)
      have hc0 : (c0 == c) = false := by
        cases hb : (c0 == c) with
        | false => rfl
        | true =>
          rw [beq_iff_eq] at hb
          rw [hb, beq_self_eq_true] at hc
          exact absurd hc (by decide)
      have hpre : listIsPrefix (c0 :: ps) (c :: cs) = false := by
        unfold listIsPrefix
        rw [hc0, Bool.false_and]
      unfold pyReplaceF
      rw [if_neg (by simp), hpre, if_neg (by simp)]
      rw [ih cs (fun x hx => h x (List.mem_cons_of_mem _ hx))]

theorem pyReplaceF_left {pat repl rest : List Char} {m : Nat} (hp : pat ≠ []) :
    pyReplaceF pat repl (m + 1) (pat ++ rest) =
      repl ++ pyReplaceF pat repl m rest := by
  cases pat with
  | nil => exact absurd rfl hp
  | cons p ps =>
    rw [List.cons_append]
    simp only [pyReplaceF]
    rw [if_neg (by simp), ← List.cons_append, listIsPrefix_append, if_pos rfl,
      List.drop_left]

theorem takeWhile_eq_self_of_all {p : Char → Bool} {l : List Char}
    (h : ∀ c ∈ l, p c = true) : l.takeWhile p = l := by
  induction l with
  | nil => rfl
  | cons c cs ih =>
    rw [List.takeWhile_cons, h c (List.mem_cons_self _ _), if_pos rfl,
      ih (fun x hx => h x (List.mem_cons_of_mem _ hx))]

theorem stripWs_space_digits {l : List Char}
    (h : ∀ c ∈ l, isAsciiDigit c = true) : stripWs (' ' :: l) = l := by
  unfold stripWs
  rw [List.dropWhile_cons]
  rw [show isPyWs ' ' = true from rfl, if_pos rfl]
  rw [dropWhile_eq_self_of_all (fun c hc => isPyWs_eq_false_of_digit (h c hc))]
  rw [dropWhile_eq_self_of_all
    (fun c hc => isPyWs_eq_false_of_digit (h c (List.mem_reverse.mp hc)))]
  rw [List.reverse_reverse]

theorem toList_eq_nil_iff {s : String} : s.toList = [] ↔ s = "" := by
  constructor
  · intro h
    cases s with
    | mk data =>
      rw [show (String.mk data).toList = data from rfl] at h
      rw [h]
  · intro h
    rw [h]
    rfl

/-- A `Student: <digits>` line sets the student id to the digit run and the
name to empty, leaving every other field untouched. -/
theorem headerLineStep_student {acc : HeaderFields} {sid : String}
    (h : ∀ c ∈ sid.toList, isAsciiDigit c = true) :
    headerLineStep acc ("Student: " ++ sid) =
      { acc with student_id := some sid, student_name := "" } := by
  have hl : ("Student: " ++ sid).toList
      = "Student:".toList ++ (' ' :: sid.toList) := rfl
  have h8 : ("Student:".toList).length = 8 := rfl
  have hfuel : ("Student:".toList ++ (' ' :: sid.toList)).length
      = (8 + sid.toList.length) + 1 := by
    rw [List.length_append, List.length_cons, h8]
    omega
  have hnos : ∀ c ∈ (' ' :: sid.toList), (c == 'S') = false := by
    intro c hc
    rcases List.mem_cons.mp hc with rfl | hc2
    · decide
    · exact digit_beq_eq_false (h c hc2) (by decide)
  have hrep : pyReplace "Student:".toList []
      ("Student:".toList ++ (' ' :: sid.toList)) = ' ' :: sid.toList := by
    unfold pyReplace
    rw [hfuel, pyReplaceF_left (by decide), List.nil_append]
    exact pyReplaceF_no_head 'S' "tudent:".toList [] _ _ hnos
  have htake : (sid.toList.takeWhile (fun c => c != ' ')) = sid.toList :=
    takeWhile_eq_self_of_all (fun c hc => by
      simp only [bne, digit_beq_eq_false (h c hc) (by decide : isAsciiDigit ' ' = false)]
      rfl)
  unfold headerLineStep
  rw [hl, listIsPrefix_append, if_pos rfl]
  dsimp only
  rw [hrep, stripWs_space_digits h, htake, if_neg (lt_irrefl _)]
  rfl

/-- C7 counterexample: a Headed body (it contains `Total Questions:`) whose
header lacks a `Student:` line leaves the student id unset, so the record is
excluded and the Compiler writes nothing — a malformed header can block
inclusion, contrary to the claim. -/
theorem claim_C7_counterexample :
    isHeadedStr
      "Total Questions: 2   Max Score: 10   Score: 5   Percentage: 50%"
      = true ∧
    compile_class_summary "5" ["SpeakingTest_5_3_24.01.01.1200.txt"]
      (fun _ =>
        some "Total Questions: 2   Max Score: 10   Score: 5   Percentage: 50%")
      "25.01.01" = (none, 0) := by
  constructor
  · decide
  · decide

/-- C7 (amended): header extraction is total and tolerant of every field but
the student key: a body whose only header line is `Student: <digits>` gets
empty-name and zero-score defaults and the record is still included (count 1);
only a missing student key blocks inclusion (see the counterexample). -/
theorem claim_C7 (sid : String) (h : pyIsdigit sid = true) :
    extractHeaderFields ("Student: " ++ sid) = ⟨some sid, "", 0, 0, 0⟩ ∧
    collectEntries ["SpeakingTest_5_1_24.01.01.1200.txt"]
        (fun _ => some ("Student: " ++ sid)) =
      [⟨sid, "", 0, 0, 0, "24.01.01.1200"⟩] ∧
    (compile_class_summary "5" ["SpeakingTest_5_1_24.01.01.1200.txt"]
        (fun _ => some ("Student: " ++ sid)) "25.01.01").2 = 1 := by
  have hpd := h
  unfold pyIsdigit at hpd
  rw [Bool.and_eq_true] at hpd
  have hdig : ∀ c ∈ sid.toList, isAsciiDigit c = true := by
    have h2 := hpd.2
    rw [List.all_eq_true] at h2
    exact h2
  have hnl : ∀ c ∈ ("Student: " ++ sid).toList, (c == '\n') = false := by
    intro c hc
    rw [show ("Student: " ++ sid).toList
      = "Student: ".toList ++ sid.toList from rfl] at hc
    rcases List.mem_append.mp hc with hc1 | hc2
    · have hsw : ∀ x ∈ "Student: ".toList, (x == '\n') = false := by decide
      exact hsw c hc1
    · exact digit_beq_eq_false (hdig c hc2) (by decide)
  have hlines : pyLines ("Student: " ++ sid) = ["Student: " ++ sid] := by
    unfold pyLines
    rw [splitOnChar_eq_single hnl, List.map_singleton]
    rfl
  have hext : extractHeaderFields ("Student: " ++ sid)
      = ⟨some sid, "", 0, 0, 0⟩ := by
    unfold extractHeaderFields
    rw [hlines, List.foldl_cons, List.foldl_nil, headerLineStep_student hdig]
  have hcol : collectEntries ["SpeakingTest_5_1_24.01.01.1200.txt"]
      (fun _ => some ("Student: " ++ sid)) =
      [⟨sid, "", 0, 0, 0, "24.01.01.1200"⟩] := by
    unfold collectEntries
    rw [List.foldl_cons, List.foldl_nil]
    unfold collectStep
    rw [if_pos (by decide)]
    dsimp only
    rw [hext]
    dsimp only
    rw [show extract_info_from_filename "SpeakingTest_5_1_24.01.01.1200.txt"
      = some ("5", "1", "24.01.01.1200") from by decide]
    dsimp only
    rw [hpd.1, Bool.true_and, if_pos (by decide), List.nil_append]
  refine ⟨hext, hcol, ?_⟩
  unfold compile_class_summary
  rw [hcol]
  rfl

theorem claim_C7_witness :
    extractHeaderFields ("Student: " ++ "07") = ⟨some "07", "", 0, 0, 0⟩ ∧
    collectEntries ["SpeakingTest_5_1_24.01.01.1200.txt"]
        (fun _ => some ("Student: " ++ "07")) =
      [⟨"07", "", 0, 0, 0, "24.01.01.1200"⟩] ∧
    (compile_class_summary "5" ["SpeakingTest_5_1_24.01.01.1200.txt"]
        (fun _ => some ("Student: " ++ "07")) "25.01.01").2 = 1 :=
  claim_C7 "07" (by decide)

/-! ## Duplicate Resolver on three same-identity records: C1 -/

theorem perm_two {α : Type} {l : List α} {a b : α} (h : l.Perm [a, b]) :
    l = [a, b] ∨ l = [b, a] := by
  obtain ⟨x, y, rfl⟩ := List.length_eq_two.mp h.length_eq
  have hx : x ∈ [a, b] := h.subset (List.mem_cons_self _ _)
  rcases List.mem_cons.mp hx with hxa | hx2
  · left
    rw [hxa] at h ⊢
    have h2 : [y] = [b] := List.perm_singleton.mp h.cons_inv
    injection h2 with hy _
    rw [hy]
  · have hxb := List.mem_singleton.mp hx2
    right
    rw [hxb] at h ⊢
    have h2 : [y] = [a] :=
      List.perm_singleton.mp (h.trans (List.Perm.swap b a [])).cons_inv
    injection h2 with hy _
    rw [hy]

theorem perm_three {α : Type} {l : List α} {a b c : α} (h : l.Perm [a, b, c]) :
    l = [a, b, c] ∨ l = [a, c, b] ∨ l = [b, a, c] ∨ l = [b, c, a] ∨
      l = [c, a, b] ∨ l = [c, b, a] := by
  obtain ⟨x, y, z, rfl⟩ := List.length_eq_three.mp h.length_eq
  have hx : x ∈ [a, b, c] := h.subset (List.mem_cons_self _ _)
  rcases List.mem_cons.mp hx with hxa | hx2
  · rw [hxa] at h ⊢
    rcases perm_two h.cons_inv with h2 | h2
    · left
      injection h2 with h3 h4
      injection h4 with h5 _
      rw [h3, h5]
    · right; left
      injection h2 with h3 h4
      injection h4 with h5 _
      rw [h3, h5]
  · rcases List.mem_cons.mp hx2 with hxb | hx3
    · rw [hxb] at h ⊢
      rcases perm_two (h.trans (List.Perm.swap b a [c])).cons_inv with h2 | h2
      · right; right; left
        injection h2 with h3 h4
        injection h4 with h5 _
        rw [h3, h5]
      · right; right; right; left
        injection h2 with h3 h4
        injection h4 with h5 _
        rw [h3, h5]
    · have hxc := List.mem_singleton.mp hx3
      rw [hxc] at h ⊢
      rcases perm_two (h.trans ((List.Perm.cons a (List.Perm.swap c b [])).trans
          (List.Perm.swap c a [b]))).cons_inv with h2 | h2
      · right; right; right; right; left
        injection h2 with h3 h4
        injection h4 with h5 _
        rw [h3, h5]
      · right; right; right; right; right
        injection h2 with h3 h4
        injection h4 with h5 _
        rw [h3, h5]

theorem scanRecords_cons_file {f cls sid ts : String} {rest : List DirEntry}
    (hq : strContains "_PROCESSED.txt" f = false)
    (hp : parse_filename f = some (cls, sid, ts)) :
    scanRecords (⟨f, true⟩ :: rest) =
      ⟨f, cls, sid, ts, get_timestamp_for_sorting ts⟩ :: scanRecords rest := by
  simp [scanRecords, scanEntry, List.filterMap_cons, hq, hp]

theorem groupRecords_three_same {a b c : RecInfo}
    (hb : recKey b = recKey a) (hc : recKey c = recKey a) :
    groupRecords [a, b, c] = [(recKey a, [a, b, c])] := by
  simp [groupRecords, List.filter_cons, hb, hc]

theorem freeDest_not_mem {f : String} {ex : List String} (h : f ∉ ex) :
    freeDest f ex = f := by
  unfold freeDest
  rw [if_neg h]

/-- C1: three records of class 5 with student keys 3, 03, 3 (all normalizing
to the identity ("5","3")) and strictly increasing parsed instants: whatever
the scan order, the Resolver flags the two older records as duplicates, keeps
the newest, and the mover quarantines exactly the two flagged files. -/
theorem claim_C1 (folder f1 f2 f3 ts1 ts2 ts3 : String)
    (listing : List DirEntry)
    (hp1 : parse_filename f1 = some ("5", "3", ts1))
    (hp2 : parse_filename f2 = some ("5", "03", ts2))
    (hp3 : parse_filename f3 = some ("5", "3", ts3))
    (hq1 : strContains "_PROCESSED.txt" f1 = false)
    (hq2 : strContains "_PROCESSED.txt" f2 = false)
    (hq3 : strContains "_PROCESSED.txt" f3 = false)
    (h12 : (get_timestamp_for_sorting ts1).encode
      < (get_timestamp_for_sorting ts2).encode)
    (h23 : (get_timestamp_for_sorting ts2).encode
      < (get_timestamp_for_sorting ts3).encode)
    (hperm : listing.Perm [⟨f1, true⟩, ⟨f2, true⟩, ⟨f3, true⟩]) :
    find_duplicates_in_folder folder listing =
      [⟨folder ++ "/" ++ f1, f1, "5", "3", ts1, true⟩,
       ⟨folder ++ "/" ++ f2, f2, "5", "03", ts2, true⟩,
       ⟨folder ++ "/" ++ f3, f3, "5", "3", ts3, false⟩] ∧
    move_duplicates
      [⟨folder ++ "/" ++ f1, f1, "5", "3", ts1, true⟩,
       ⟨folder ++ "/" ++ f2, f2, "5", "03", ts2, true⟩,
       ⟨folder ++ "/" ++ f3, f3, "5", "3", ts3, false⟩] [] =
      (2, [f1, f2], [(f1, f1), (f2, f2)]) := by
  have h13 := lt_trans h12 h23
  have t12 : dtLE ⟨f1, "5", "3", ts1, get_timestamp_for_sorting ts1⟩ ⟨f2, "5", "03", ts2, get_timestamp_for_sorting ts2⟩ = true := by
    unfold dtLE
    exact decide_eq_true (le_of_lt h12)
  have t13 : dtLE ⟨f1, "5", "3", ts1, get_timestamp_for_sorting ts1⟩ ⟨f3, "5", "3", ts3, get_timestamp_for_sorting ts3⟩ = true := by
    unfold dtLE
    exact decide_eq_true (le_of_lt h13)
  have t23 : dtLE ⟨f2, "5", "03", ts2, get_timestamp_for_sorting ts2⟩ ⟨f3, "5", "3", ts3, get_timestamp_for_sorting ts3⟩ = true := by
    unfold dtLE
    exact decide_eq_true (le_of_lt h23)
  have g21 : dtLE ⟨f2, "5", "03", ts2, get_timestamp_for_sorting ts2⟩ ⟨f1, "5", "3", ts1, get_timestamp_for_sorting ts1⟩ = false := by
    unfold dtLE
    exact decide_eq_false (not_le.mpr h12)
  have g31 : dtLE ⟨f3, "5", "3", ts3, get_timestamp_for_sorting ts3⟩ ⟨f1, "5", "3", ts1, get_timestamp_for_sorting ts1⟩ = false := by
    unfold dtLE
    exact decide_eq_false (not_le.mpr h13)
  have g32 : dtLE ⟨f3, "5", "3", ts3, get_timestamp_for_sorting ts3⟩ ⟨f2, "5", "03", ts2, get_timestamp_for_sorting ts2⟩ = false := by
    unfold dtLE
    exact decide_eq_false (not_le.mpr h23)
  have k1 : recKey ⟨f1, "5", "3", ts1, get_timestamp_for_sorting ts1⟩ = ("5", "3") := by
    show ("5", normalize_student_id "3") = ("5", "3")
    decide
  have k2 : recKey ⟨f2, "5", "03", ts2, get_timestamp_for_sorting ts2⟩ = ("5", "3") := by
    show ("5", normalize_student_id "03") = ("5", "3")
    decide
  have k3 : recKey ⟨f3, "5", "3", ts3, get_timestamp_for_sorting ts3⟩ = ("5", "3") := by
    show ("5", normalize_student_id "3") = ("5", "3")
    decide
  have hne12 : f1 ≠ f2 := by
    intro he
    rw [he, hp2] at hp1
    injection hp1 with h1
    injection h1 with h2 h3
    injection h3 with h4 h5
    exact absurd h4 (by decide)
  have hmove : move_duplicates
      [⟨folder ++ "/" ++ f1, f1, "5", "3", ts1, true⟩,
       ⟨folder ++ "/" ++ f2, f2, "5", "03", ts2, true⟩,
       ⟨folder ++ "/" ++ f3, f3, "5", "3", ts3, false⟩] [] =
      (2, [f1, f2], [(f1, f1), (f2, f2)]) := by
    have hnm2 : f2 ∉ [f1] := by
      simp only [List.mem_singleton]
      exact fun he => hne12 he.symm
    simp [move_duplicates, freeDest_not_mem (List.not_mem_nil f1),
      freeDest_not_mem hnm2]
  rcases perm_three hperm with hl | hl | hl | hl | hl | hl
  · have hscan : scanRecords listing = [⟨f1, "5", "3", ts1, get_timestamp_for_sorting ts1⟩, ⟨f2, "5", "03", ts2, get_timestamp_for_sorting ts2⟩, ⟨f3, "5", "3", ts3, get_timestamp_for_sorting ts3⟩] := by
      rw [hl, scanRecords_cons_file hq1 hp1, scanRecords_cons_file hq2 hp2,
        scanRecords_cons_file hq3 hp3]
      rfl
    have hgrp := groupRecords_three_same
      (show recKey ⟨f2, "5", "03", ts2, get_timestamp_for_sorting ts2⟩ = recKey ⟨f1, "5", "3", ts1, get_timestamp_for_sorting ts1⟩ by rw [k2, k1])
      (show recKey ⟨f3, "5", "3", ts3, get_timestamp_for_sorting ts3⟩ = recKey ⟨f1, "5", "3", ts1, get_timestamp_for_sorting ts1⟩ by rw [k3, k1])
    have hsort : stableSort dtLE [⟨f1, "5", "3", ts1, get_timestamp_for_sorting ts1⟩, ⟨f2, "5", "03", ts2, get_timestamp_for_sorting ts2⟩, ⟨f3, "5", "3", ts3, get_timestamp_for_sorting ts3⟩] =
        [⟨f1, "5", "3", ts1, get_timestamp_for_sorting ts1⟩, ⟨f2, "5", "03", ts2, get_timestamp_for_sorting ts2⟩, ⟨f3, "5", "3", ts3, get_timestamp_for_sorting ts3⟩] := by
      simp [stableSort, insertSorted, t12, t13, t23, g21, g31, g32]
    refine ⟨?_, hmove⟩
    unfold find_duplicates_in_folder
    rw [hscan, hgrp]
    simp [dupStep, hsort, List.mapIdx_cons]
  · have hscan : scanRecords listing = [⟨f1, "5", "3", ts1, get_timestamp_for_sorting ts1⟩, ⟨f3, "5", "3", ts3, get_timestamp_for_sorting ts3⟩, ⟨f2, "5", "03", ts2, get_timestamp_for_sorting ts2⟩] := by
      rw [hl, scanRecords_cons_file hq1 hp1, scanRecords_cons_file hq3 hp3,
        scanRecords_cons_file hq2 hp2]
      rfl
    have hgrp := groupRecords_three_same
      (show recKey ⟨f3, "5", "3", ts3, get_timestamp_for_sorting ts3⟩ = recKey ⟨f1, "5", "3", ts1, get_timestamp_for_sorting ts1⟩ by rw [k3, k1])
      (show recKey ⟨f2, "5", "03", ts2, get_timestamp_for_sorting ts2⟩ = recKey ⟨f1, "5", "3", ts1, get_timestamp_for_sorting ts1⟩ by rw [k2, k1])
    have hsort : stableSort dtLE [⟨f1, "5", "3", ts1, get_timestamp_for_sorting ts1⟩, ⟨f3, "5", "3", ts3, get_timestamp_for_sorting ts3⟩, ⟨f2, "5", "03", ts2, get_timestamp_for_sorting ts2⟩] =
        [⟨f1, "5", "3", ts1, get_timestamp_for_sorting ts1⟩, ⟨f2, "5", "03", ts2, get_timestamp_for_sorting ts2⟩, ⟨f3, "5", "3", ts3, get_timestamp_for_sorting ts3⟩] := by
      simp [stableSort, insertSorted, t12, t13, t23, g21, g31, g32]
    refine ⟨?_, hmove⟩
    unfold find_duplicates_in_folder
    rw [hscan, hgrp]
    simp [dupStep, hsort, List.mapIdx_cons]
  · have hscan : scanRecords listing = [⟨f2, "5", "03", ts2, get_timestamp_for_sorting ts2⟩, ⟨f1, "5", "3", ts1, get_timestamp_for_sorting ts1⟩, ⟨f3, "5", "3", ts3, get_timestamp_for_sorting ts3⟩] := by
      rw [hl, scanRecords_cons_file hq2 hp2, scanRecords_cons_file hq1 hp1,
        scanRecords_cons_file hq3 hp3]
      rfl
    have hgrp := groupRecords_three_same
      (show recKey ⟨f1, "5", "3", ts1, get_timestamp_for_sorting ts1⟩ = recKey ⟨f2, "5", "03", ts2, get_timestamp_for_sorting ts2⟩ by rw [k1, k2])
      (show recKey ⟨f3, "5", "3", ts3, get_timestamp_for_sorting ts3⟩ = recKey ⟨f2, "5", "03", ts2, get_timestamp_for_sorting ts2⟩ by rw [k3, k2])
    have hsort : stableSort dtLE [⟨f2, "5", "03", ts2, get_timestamp_for_sorting ts2⟩, ⟨f1, "5", "3", ts1, get_timestamp_for_sorting ts1⟩, ⟨f3, "5", "3", ts3, get_timestamp_for_sorting ts3⟩] =
        [⟨f1, "5", "3", ts1, get_timestamp_for_sorting ts1⟩, ⟨f2, "5", "03", ts2, get_timestamp_for_sorting ts2⟩, ⟨f3, "5", "3", ts3, get_timestamp_for_sorting ts3⟩] := by
      simp [stableSort, insertSorted, t12, t13, t23, g21, g31, g32]
    refine ⟨?_, hmove⟩
    unfold find_duplicates_in_folder
    rw [hscan, hgrp]
    simp [dupStep, hsort, List.mapIdx_cons]
  · have hscan : scanRecords listing = [⟨f2, "5", "03", ts2, get_timestamp_for_sorting ts2⟩, ⟨f3, "5", "3", ts3, get_timestamp_for_sorting ts3⟩, ⟨f1, "5", "3", ts1, get_timestamp_for_sorting ts1⟩] := by
      rw [hl, scanRecords_cons_file hq2 hp2, scanRecords_cons_file hq3 hp3,
        scanRecords_cons_file hq1 hp1]
      rfl
    have hgrp := groupRecords_three_same
      (show recKey ⟨f3, "5", "3", ts3, get_timestamp_for_sorting ts3⟩ = recKey ⟨f2, "5", "03", ts2, get_timestamp_for_sorting ts2⟩ by rw [k3, k2])
      (show recKey ⟨f1, "5", "3", ts1, get_timestamp_for_sorting ts1⟩ = recKey ⟨f2, "5", "03", ts2, get_timestamp_for_sorting ts2⟩ by rw [k1, k2])
    have hsort : stableSort dtLE [⟨f2, "5", "03", ts2, get_timestamp_for_sorting ts2⟩, ⟨f3, "5", "3", ts3, get_timestamp_for_sorting ts3⟩, ⟨f1, "5", "3", ts1, get_timestamp_for_sorting ts1⟩] =
        [⟨f1, "5", "3", ts1, get_timestamp_for_sorting ts1⟩, ⟨f2, "5", "03", ts2, get_timestamp_for_sorting ts2⟩, ⟨f3, "5", "3", ts3, get_timestamp_for_sorting ts3⟩] := by
      simp [stableSort, insertSorted, t12, t13, t23, g21, g31, g32]
    refine ⟨?_, hmove⟩
    unfold find_duplicates_in_folder
    rw [hscan, hgrp]
    simp [dupStep, hsort, List.mapIdx_cons]
  · have hscan : scanRecords listing = [⟨f3, "5", "3", ts3, get_timestamp_for_sorting ts3⟩, ⟨f1, "5", "3", ts1, get_timestamp_for_sorting ts1⟩, ⟨f2, "5", "03", ts2, get_timestamp_for_sorting ts2⟩] := by
      rw [hl, scanRecords_cons_file hq3 hp3, scanRecords_cons_file hq1 hp1,
        scanRecords_cons_file hq2 hp2]
      rfl
    have hgrp := groupRecords_three_same
      (show recKey ⟨f1, "5", "3", ts1, get_timestamp_for_sorting ts1⟩ = recKey ⟨f3, "5", "3", ts3, get_timestamp_for_sorting ts3⟩ by rw [k1, k3])
      (show recKey ⟨f2, "5", "03", ts2, get_timestamp_for_sorting ts2⟩ = recKey ⟨f3, "5", "3", ts3, get_timestamp_for_sorting ts3⟩ by rw [k2, k3])
    have hsort : stableSort dtLE [⟨f3, "5", "3", ts3, get_timestamp_for_sorting ts3⟩, ⟨f1, "5", "3", ts1, get_timestamp_for_sorting ts1⟩, ⟨f2, "5", "03", ts2, get_timestamp_for_sorting ts2⟩] =
        [⟨f1, "5", "3", ts1, get_timestamp_for_sorting ts1⟩, ⟨f2, "5", "03", ts2, get_timestamp_for_sorting ts2⟩, ⟨f3, "5", "3", ts3, get_timestamp_for_sorting ts3⟩] := by
      simp [stableSort, insertSorted, t12, t13, t23, g21, g31, g32]
    refine ⟨?_, hmove⟩
    unfold find_duplicates_in_folder
    rw [hscan, hgrp]
    simp [dupStep, hsort, List.mapIdx_cons]
  · have hscan : scanRecords listing = [⟨f3, "5", "3", ts3, get_timestamp_for_sorting ts3⟩, ⟨f2, "5", "03", ts2, get_timestamp_for_sorting ts2⟩, ⟨f1, "5", "3", ts1, get_timestamp_for_sorting ts1⟩] := by
      rw [hl, scanRecords_cons_file hq3 hp3, scanRecords_cons_file hq2 hp2,
        scanRecords_cons_file hq1 hp1]
      rfl
    have hgrp := groupRecords_three_same
      (show recKey ⟨f2, "5", "03", ts2, get_timestamp_for_sorting ts2⟩ = recKey ⟨f3, "5", "3", ts3, get_timestamp_for_sorting ts3⟩ by rw [k2, k3])
      (show recKey ⟨f1, "5", "3", ts1, get_timestamp_for_sorting ts1⟩ = recKey ⟨f3, "5", "3", ts3, get_timestamp_for_sorting ts3⟩ by rw [k1, k3])
    have hsort : stableSort dtLE [⟨f3, "5", "3", ts3, get_timestamp_for_sorting ts3⟩, ⟨f2, "5", "03", ts2, get_timestamp_for_sorting ts2⟩, ⟨f1, "5", "3", ts1, get_timestamp_for_sorting ts1⟩] =
        [⟨f1, "5", "3", ts1, get_timestamp_for_sorting ts1⟩, ⟨f2, "5", "03", ts2, get_timestamp_for_sorting ts2⟩, ⟨f3, "5", "3", ts3, get_timestamp_for_sorting ts3⟩] := by
      simp [stableSort, insertSorted, t12, t13, t23, g21, g31, g32]
    refine ⟨?_, hmove⟩
    unfold find_duplicates_in_folder
    rw [hscan, hgrp]
    simp [dupStep, hsort, List.mapIdx_cons]

theorem claim_C1_witness :
    find_duplicates_in_folder "C5"
      [⟨"SpeakingTest_5_3_24.01.01.0900.txt", true⟩,
       ⟨"SpeakingTest_5_03_24.01.01.1000.txt", true⟩,
       ⟨"SpeakingTest_5_3_24.01.01.1100.txt", true⟩] =
      [⟨"C5" ++ "/" ++ "SpeakingTest_5_3_24.01.01.0900.txt",
        "SpeakingTest_5_3_24.01.01.0900.txt", "5", "3", "24.01.01.0900", true⟩,
       ⟨"C5" ++ "/" ++ "SpeakingTest_5_03_24.01.01.1000.txt",
        "SpeakingTest_5_03_24.01.01.1000.txt", "5", "03", "24.01.01.1000", true⟩,
       ⟨"C5" ++ "/" ++ "SpeakingTest_5_3_24.01.01.1100.txt",
        "SpeakingTest_5_3_24.01.01.1100.txt", "5", "3", "24.01.01.1100", false⟩] ∧
    move_duplicates
      [⟨"C5" ++ "/" ++ "SpeakingTest_5_3_24.01.01.0900.txt",
        "SpeakingTest_5_3_24.01.01.0900.txt", "5", "3", "24.01.01.0900", true⟩,
       ⟨"C5" ++ "/" ++ "SpeakingTest_5_03_24.01.01.1000.txt",
        "SpeakingTest_5_03_24.01.01.1000.txt", "5", "03", "24.01.01.1000", true⟩,
       ⟨"C5" ++ "/" ++ "SpeakingTest_5_3_24.01.01.1100.txt",
        "SpeakingTest_5_3_24.01.01.1100.txt", "5", "3", "24.01.01.1100", false⟩]
      [] =
      (2, ["SpeakingTest_5_3_24.01.01.0900.txt",
           "SpeakingTest_5_03_24.01.01.1000.txt"],
       [("SpeakingTest_5_3_24.01.01.0900.txt",
         "SpeakingTest_5_3_24.01.01.0900.txt"),
        ("SpeakingTest_5_03_24.01.01.1000.txt",
         "SpeakingTest_5_03_24.01.01.1000.txt")]) :=
  claim_C1 "C5" "SpeakingTest_5_3_24.01.01.0900.txt"
    "SpeakingTest_5_03_24.01.01.1000.txt" "SpeakingTest_5_3_24.01.01.1100.txt"
    "24.01.01.0900" "24.01.01.1000" "24.01.01.1100"
    [⟨"SpeakingTest_5_3_24.01.01.0900.txt", true⟩,
     ⟨"SpeakingTest_5_03_24.01.01.1000.txt", true⟩,
     ⟨"SpeakingTest_5_3_24.01.01.1100.txt", true⟩]
    (by decide) (by decide) (by decide) (by decide) (by decide) (by decide)
    (by decide) (by decide) (List.Perm.refl _)

/-! ## Resolver idempotence: C5 -/

theorem insertSorted_perm {α : Type} (le : α → α → Bool) (x : α) :
    ∀ l : List α, (insertSorted le x l).Perm (x :: l) := by
  intro l
  induction l with
  | nil => exact List.Perm.refl _
  | cons y ys ih =>
    unfold insertSorted
    by_cases hc : le y x = true
    · rw [if_pos hc]
      exact (ih.cons y).trans (List.Perm.swap x y ys)
    · rw [if_neg hc]

theorem stableSort_perm_aux {α : Type} (le : α → α → Bool) :
    ∀ (l acc : List α),
      (l.foldl (fun acc x => insertSorted le x acc) acc).Perm (acc ++ l) := by
  intro l
  induction l with
  | nil =>
    intro acc
    rw [List.foldl_nil, List.append_nil]
  | cons x xs ih =>
    intro acc
    rw [List.foldl_cons]
    have h1 := ih (insertSorted le x acc)
    have h2 : (insertSorted le x acc ++ xs).Perm (acc ++ x :: xs) :=
      ((insertSorted_perm le x acc).append_right xs).trans List.perm_middle.symm
    exact h1.trans h2

theorem stableSort_perm {α : Type} (le : α → α → Bool) (l : List α) :
    (stableSort le l).Perm l :=
  stableSort_perm_aux le l []

theorem scanEntry_filename {e : DirEntry} {r : RecInfo}
    (h : scanEntry e = some r) : r.filename = e.name := by
  unfold scanEntry at h
  split at h
  · exact absurd h (by simp)
  · split at h
    · exact absurd h (by simp)
    · split at h
      · exact absurd h (by simp)
      · injection h with h2
        rw [← h2]

theorem scanRecords_cons_none {e : DirEntry} {rest : List DirEntry}
    (h : scanEntry e = none) :
    scanRecords (e :: rest) = scanRecords rest := by
  unfold scanRecords
  rw [List.filterMap_cons, h]

theorem scanRecords_cons_some {e : DirEntry} {r : RecInfo}
    {rest : List DirEntry} (h : scanEntry e = some r) :
    scanRecords (e :: rest) = r :: scanRecords rest := by
  unfold scanRecords
  rw [List.filterMap_cons, h]

/-- Scanning a name-filtered directory scans the surviving records. -/
theorem scanRecords_filter (p : String → Bool) :
    ∀ listing : List DirEntry,
      scanRecords (listing.filter (fun e => p e.name)) =
        (scanRecords listing).filter (fun r => p r.filename) := by
  intro listing
  induction listing with
  | nil => rfl
  | cons e rest ih =>
    rw [List.filter_cons]
    cases hg : scanEntry e with
    | none =>
      by_cases hp : p e.name = true
      · rw [if_pos hp, scanRecords_cons_none hg, scanRecords_cons_none hg, ih]
      · rw [if_neg hp, ih, scanRecords_cons_none hg]
    | some r =>
      by_cases hp : p e.name = true
      · rw [if_pos hp, scanRecords_cons_some hg, scanRecords_cons_some hg, ih,
          List.filter_cons, scanEntry_filename hg, if_pos hp]
      · rw [if_neg hp, ih, scanRecords_cons_some hg, List.filter_cons,
          scanEntry_filename hg, if_neg hp]

/-- The scanned filenames form a sublist of the directory names. -/
theorem scanRecords_names_sublist :
    ∀ listing : List DirEntry,
      ((scanRecords listing).map (fun r => r.filename)).Sublist
        (listing.map DirEntry.name) := by
  intro listing
  induction listing with
  | nil => exact List.Sublist.refl _
  | cons e rest ih =>
    rw [List.map_cons]
    cases hg : scanEntry e with
    | none =>
      rw [scanRecords_cons_none hg]
      exact ih.cons e.name
    | some r =>
      rw [scanRecords_cons_some hg, List.map_cons, scanEntry_filename hg]
      exact ih.cons₂ e.name

theorem filter_key_collapse {k kr : String × String} (hne : k ≠ kr)
    (rs : List RecInfo) :
    (rs.filter (fun x => recKey x != kr)).filter (fun x => recKey x == k) =
      rs.filter (fun x => recKey x == k) := by
  rw [List.filter_filter]
  apply List.filter_congr
  intro x _
  cases hxk : (recKey x == k) with
  | false => rw [Bool.false_and]
  | true =>
    rw [Bool.true_and]
    exact bne_iff_ne.mpr (by rw [eq_of_beq hxk]; exact hne)

/-- Every `defaultdict` bucket is nonempty and holds exactly the scanned
records of its key, in scan order. -/
theorem groupRecords_mem_aux :
    ∀ (n : Nat) (l : List RecInfo), l.length ≤ n →
      ∀ k v, (k, v) ∈ groupRecords l →
        v ≠ [] ∧ v = l.filter (fun x => recKey x == k) := by
  intro n
  induction n with
  | zero =>
    intro l hl k v hm
    have hnil : l = [] := by
      cases l with
      | nil => rfl
      | cons a b => simp at hl
    subst hnil
    simp [groupRecords] at hm
  | succ n ih =>
    intro l hl k v hm
    cases l with
    | nil => simp [groupRecords] at hm
    | cons r rs =>
      simp only [groupRecords] at hm
      rcases List.mem_cons.mp hm with he | ht
      · injection he with hk hv
        subst hk
        subst hv
        constructor
        · exact List.cons_ne_nil _ _
        · simp [List.filter_cons]
      · have hlen : (rs.filter (fun x => recKey x != recKey r)).length ≤ n := by
          have := List.length_filter_le (fun x => recKey x != recKey r) rs
          simp only [List.length_cons] at hl
          omega
        obtain ⟨hne, hv⟩ := ih _ hlen k v ht
        refine ⟨hne, ?_⟩
        obtain ⟨x, hx⟩ := List.exists_mem_of_ne_nil _ hne
        rw [hv] at hx
        have hx2 := List.mem_filter.mp hx
        have hx3 := List.mem_filter.mp hx2.1
        have hkx : recKey x = k := eq_of_beq hx2.2
        have hkkr : k ≠ recKey r := by
          rw [← hkx]
          exact bne_iff_ne.mp hx3.2
        have hrk : (recKey r == k) = false :=
          beq_eq_false_iff_ne.mpr (fun h => hkkr h.symm)
        rw [hv, filter_key_collapse hkkr]
        simp [List.filter_cons, hrk]

/-- Every scanned record lands in the bucket of its key. -/
theorem groupRecords_mem_of_mem_aux :
    ∀ (n : Nat) (l : List RecInfo), l.length ≤ n →
      ∀ x ∈ l, (recKey x, l.filter (fun y => recKey y == recKey x)) ∈
        groupRecords l := by
  intro n
  induction n with
  | zero =>
    intro l hl x hx
    have hnil : l = [] := by
      cases l with
      | nil => rfl
      | cons a b => simp at hl
    subst hnil
    simp at hx
  | succ n ih =>
    intro l hl x hx
    cases l with
    | nil => simp at hx
    | cons r rs =>
      simp only [groupRecords]
      by_cases hk : recKey x = recKey r
      · apply List.mem_cons.mpr
        left
        rw [hk]
        simp [List.filter_cons]
      · apply List.mem_cons.mpr
        right
        have hx2 : x ∈ rs := by
          rcases List.mem_cons.mp hx with he | h2
          · exact absurd (congrArg recKey he) hk
          · exact h2
        have hxf : x ∈ rs.filter (fun y => recKey y != recKey r) :=
          List.mem_filter.mpr ⟨hx2, bne_iff_ne.mpr hk⟩
        have hlen : (rs.filter (fun y => recKey y != recKey r)).length ≤ n := by
          have := List.length_filter_le (fun y => recKey y != recKey r) rs
          simp only [List.length_cons] at hl
          omega
        have hmem := ih _ hlen x hxf
        rw [filter_key_collapse hk] at hmem
        have hrk : (recKey r == recKey x) = false :=
          beq_eq_false_iff_ne.mpr (fun h => hk h.symm)
        rw [show (r :: rs).filter (fun y => recKey y == recKey x) =
          rs.filter (fun y => recKey y == recKey x) from by
            simp [List.filter_cons, hrk]]
        exact hmem

theorem groupRecords_mem {l : List RecInfo} {k : String × String}
    {v : List RecInfo} (h : (k, v) ∈ groupRecords l) :
    v ≠ [] ∧ v = l.filter (fun x => recKey x == k) :=
  groupRecords_mem_aux l.length l (le_refl _) k v h

theorem groupRecords_mem_of_mem {l : List RecInfo} {x : RecInfo} (h : x ∈ l) :
    (recKey x, l.filter (fun y => recKey y == recKey x)) ∈ groupRecords l :=
  groupRecords_mem_of_mem_aux l.length l (le_refl _) x h

theorem mapIdxFlag_names (folder : String) :
    ∀ (t : List RecInfo) (q : Nat → Bool),
      (∀ i, i + 1 < t.length → q i = true) →
      q (t.length - 1) = false →
      (((t.mapIdx (fun i r => (⟨folder ++ "/" ++ r.filename, r.filename,
          r.class_number, r.student_id, r.timestamp, q i⟩ : DupEntry))).filter
          (fun d => d.is_duplicate)).map (fun d => d.filename))
        = t.dropLast.map (fun r => r.filename) := by
  intro t
  induction t with
  | nil =>
    intro q h1 h2
    rfl
  | cons r t ih =>
    intro q h1 h2
    rw [List.mapIdx_cons, List.filter_cons]
    cases t with
    | nil =>
      have h0 : q 0 = false := h2
      dsimp only
      rw [h0]
      rfl
    | cons r2 t2 =>
      have h0 : q 0 = true := h1 0 (by simp only [List.length_cons]; omega)
      dsimp only
      rw [h0, if_pos rfl, List.map_cons, List.dropLast_cons₂, List.map_cons]
      dsimp only
      congr 1
      exact ih (fun i => q (i + 1))
        (fun i hi => h1 (i + 1)
          (by simp only [List.length_cons] at hi ⊢; omega)) h2

theorem dupStep_acc {folder : String} {acc : List DupEntry}
    {kv : (String × String) × List RecInfo} :
    dupStep folder acc kv = acc ++ dupStep folder [] kv := by
  unfold dupStep
  by_cases hc : kv.2.length > 1
  · rw [if_pos hc, if_pos hc, List.nil_append]
  · rw [if_neg hc, if_neg hc, List.append_nil]

theorem foldl_dupStep_append (folder : String) :
    ∀ (bs : List ((String × String) × List RecInfo)) (acc : List DupEntry),
      bs.foldl (dupStep folder) acc = acc ++ bs.foldl (dupStep folder) [] := by
  intro bs
  induction bs with
  | nil =>
    intro acc
    rw [List.foldl_nil, List.foldl_nil, List.append_nil]
  | cons kv bs ih =>
    intro acc
    rw [List.foldl_cons, List.foldl_cons, ih (dupStep folder acc kv),
      ih (dupStep folder [] kv), dupStep_acc, List.append_assoc]

theorem dupStep_flagged_names (folder : String)
    {kv : (String × String) × List RecInfo} (h : kv.2.length > 1) :
    ((dupStep folder [] kv).filter (fun d => d.is_duplicate)).map
        (fun d => d.filename) =
      (stableSort dtLE kv.2).dropLast.map (fun r => r.filename) := by
  unfold dupStep
  rw [if_pos h]
  dsimp only
  rw [List.nil_append]
  exact mapIdxFlag_names folder (stableSort dtLE kv.2)
    (fun i => decide (i < (stableSort dtLE kv.2).length - 1))
    (fun i hi => decide_eq_true (by omega))
    (decide_eq_false (lt_irrefl _))

theorem dupStep_nil_of_small {folder : String}
    {kv : (String × String) × List RecInfo} (h : ¬(kv.2.length > 1)) :
    dupStep folder [] kv = [] := by
  unfold dupStep
  rw [if_neg h]

/-- A name is flagged by the first run iff it names a non-final member of the
sorted order of an oversize bucket. -/
theorem mem_flagged_iff (folder : String) :
    ∀ (bs : List ((String × String) × List RecInfo)) (nm : String),
      (nm ∈ ((bs.foldl (dupStep folder) []).filter
        (fun d => d.is_duplicate)).map (fun d => d.filename)) ↔
      ∃ kv ∈ bs, kv.2.length > 1 ∧
        nm ∈ (stableSort dtLE kv.2).dropLast.map (fun r => r.filename) := by
  intro bs
  induction bs with
  | nil =>
    intro nm
    simp
  | cons kv bs ih =>
    intro nm
    rw [List.foldl_cons, foldl_dupStep_append folder bs (dupStep folder [] kv),
      List.filter_append, List.map_append, List.mem_append]
    by_cases hlen : kv.2.length > 1
    · rw [dupStep_flagged_names folder hlen]
      constructor
      · intro h
        rcases h with h | h
        · exact ⟨kv, List.mem_cons_self _ _, hlen, h⟩
        · obtain ⟨kv2, hm, hh1, hh2⟩ := (ih nm).mp h
          exact ⟨kv2, List.mem_cons_of_mem _ hm, hh1, hh2⟩
      · intro h
        obtain ⟨kv2, hm, hh1, hh2⟩ := h
        rcases List.mem_cons.mp hm with he | hm2
        · left
          rw [he] at hh2
          exact hh2
        · right
          exact (ih nm).mpr ⟨kv2, hm2, hh1, hh2⟩
    · rw [dupStep_nil_of_small hlen]
      constructor
      · intro h
        rcases h with h | h
        · simp at h
        · obtain ⟨kv2, hm, hh1, hh2⟩ := (ih nm).mp h
          exact ⟨kv2, List.mem_cons_of_mem _ hm, hh1, hh2⟩
      · intro h
        obtain ⟨kv2, hm, hh1, hh2⟩ := h
        rcases List.mem_cons.mp hm with he | hm2
        · rw [he] at hh1
          exact absurd hh1 hlen
        · right
          exact (ih nm).mpr ⟨kv2, hm2, hh1, hh2⟩

/-- After the first run's moves, every bucket of a rescan has exactly one
member. -/
theorem kept_bucket_length (folder : String) (listing : List DirEntry)
    (hnodup : (listing.map DirEntry.name).Nodup) :
    ∀ kv ∈ groupRecords (scanRecords (keptListing folder listing)),
      kv.2.length = 1 := by
  intro kv hkv
  obtain ⟨k, v⟩ := kv
  obtain ⟨hvne, hveq⟩ := groupRecords_mem hkv
  show v.length = 1
  have hnames : ((scanRecords listing).map (fun r => r.filename)).Nodup :=
    List.Nodup.sublist (scanRecords_names_sublist listing) hnodup
  have hrecs2 : scanRecords (keptListing folder listing) =
      (scanRecords listing).filter (fun r =>
        !((((find_duplicates_in_folder folder listing).filter
          (fun d => d.is_duplicate)).map (fun d => d.filename)).contains
            r.filename)) := by
    unfold keptListing
    exact scanRecords_filter (fun nm =>
      !((((find_duplicates_in_folder folder listing).filter
        (fun d => d.is_duplicate)).map (fun d => d.filename)).contains nm))
      listing
  rw [hrecs2, List.filter_filter] at hveq
  obtain ⟨x, hx⟩ := List.exists_mem_of_ne_nil _ hvne
  rw [hveq] at hx
  obtain ⟨hxl, hxcond⟩ := List.mem_filter.mp hx
  rw [Bool.and_eq_true] at hxcond
  have hxk : recKey x = k := eq_of_beq hxcond.1
  subst hxk
  have hw : (recKey x, (scanRecords listing).filter
      (fun y => recKey y == recKey x)) ∈ groupRecords (scanRecords listing) :=
    groupRecords_mem_of_mem hxl
  have hxw : x ∈ (scanRecords listing).filter
      (fun y => recKey y == recKey x) :=
    List.mem_filter.mpr ⟨hxl, beq_self_eq_true _⟩
  set recs1 := scanRecords listing with hrecs1def
  set FL := ((find_duplicates_in_folder folder listing).filter
    (fun d => d.is_duplicate)).map (fun d => d.filename) with hFLdef
  set w := recs1.filter (fun y => recKey y == recKey x) with hwdef
  set s := stableSort dtLE w with hsdef
  have hsp : s.Perm w := stableSort_perm dtLE w
  have hsne : s ≠ [] := by
    intro h0
    have hl0 := hsp.length_eq
    rw [h0] at hl0
    have hw0 : w = [] := List.eq_nil_of_length_eq_zero hl0.symm
    rw [hw0] at hxw
    simp at hxw
  have hwsub := List.Sublist.map (fun r : RecInfo => r.filename)
    (@List.filter_sublist RecInfo (fun y => recKey y == recKey x) recs1)
  have hwnames : (w.map (fun r => r.filename)).Nodup :=
    List.Nodup.sublist hwsub hnames
  have hsnames : (s.map (fun r => r.filename)).Nodup :=
    ((hsp.map (fun r => r.filename)).nodup_iff).mpr hwnames
  have hFLiff : ∀ nm : String, (FL.contains nm = true) ↔
      ∃ kv2 ∈ groupRecords recs1, kv2.2.length > 1 ∧
        nm ∈ (stableSort dtLE kv2.2).dropLast.map (fun r => r.filename) := by
    intro nm
    exact Iff.trans List.elem_iff (mem_flagged_iff folder (groupRecords recs1) nm)
  have hchar_mp : ∀ r ∈ s, FL.contains r.filename = true → r ∈ s.dropLast := by
    intro r hr hfl
    obtain ⟨kv2, hkv2, hlen2, hnm⟩ := (hFLiff r.filename).mp hfl
    obtain ⟨r2, hr2mem, hr2name⟩ := List.mem_map.mp hnm
    obtain ⟨k2, v2⟩ := kv2
    obtain ⟨hv2ne, hv2eq⟩ := groupRecords_mem hkv2
    have hr2s : r2 ∈ stableSort dtLE v2 :=
      (List.dropLast_sublist _).subset hr2mem
    have hr2v : r2 ∈ v2 := (stableSort_perm dtLE v2).subset hr2s
    have hr2f : r2 ∈ recs1.filter (fun y => recKey y == k2) := by
      rw [← hv2eq]
      exact hr2v
    have hr2recs : r2 ∈ recs1 := (List.mem_filter.mp hr2f).1
    have hrw : r ∈ w := hsp.subset hr
    have hrrecs : r ∈ recs1 := (List.mem_filter.mp hrw).1
    have hreq : r2 = r :=
      List.inj_on_of_nodup_map hnames hr2recs hrrecs hr2name
    subst hreq
    have hk2 : k2 = recKey r2 := (eq_of_beq (List.mem_filter.mp hr2f).2).symm
    have hkx : recKey r2 = recKey x := eq_of_beq (List.mem_filter.mp hrw).2
    have hv2w : v2 = w := by
      rw [hv2eq, hwdef, hk2, hkx]
    rw [hv2w, ← hsdef] at hr2mem
    exact hr2mem
  have hchar_mpr : ∀ r ∈ s.dropLast, FL.contains r.filename = true := by
    intro r hr
    have hdne : s.dropLast ≠ [] := List.ne_nil_of_mem hr
    have hslen2 : s.length ≥ 2 := by
      have h1 := List.length_dropLast s
      have h2 : 0 < s.dropLast.length := List.length_pos.mpr hdne
      omega
    have hwlen : w.length > 1 := by
      have := hsp.length_eq
      omega
    apply (hFLiff r.filename).mpr
    refine ⟨(recKey x, w), hw, hwlen, ?_⟩
    rw [← hsdef]
    exact List.mem_map.mpr ⟨r, hr, rfl⟩
  have hv2 : v = w.filter (fun r => !(FL.contains r.filename)) := by
    rw [hveq, hwdef, List.filter_filter]
    apply List.filter_congr
    intro a _
    exact Bool.and_comm _ _
  have hlen_eq : v.length =
      (s.filter (fun r => !(FL.contains r.filename))).length := by
    rw [hv2]
    exact ((hsp.filter _).length_eq).symm
  have hsplit := List.dropLast_append_getLast hsne
  have hlast_nf : FL.contains (s.getLast hsne).filename = false := by
    cases hc : FL.contains (s.getLast hsne).filename with
    | false => rfl
    | true =>
      have hmem := hchar_mp (s.getLast hsne) (List.getLast_mem hsne) hc
      have hnm : (s.getLast hsne).filename ∈
          s.dropLast.map (fun r => r.filename) :=
        List.mem_map.mpr ⟨_, hmem, rfl⟩
      have hs2 := hsnames
      rw [← hsplit, List.map_append, List.nodup_append] at hs2
      exact (hs2.2.2 hnm (by simp)).elim
  have hfilter : s.filter (fun r => !(FL.contains r.filename)) =
      [s.getLast hsne] := by
    conv_lhs => rw [← hsplit]
    rw [List.filter_append]
    have hd : s.dropLast.filter (fun r => !(FL.contains r.filename)) = [] := by
      apply List.filter_eq_nil_iff.mpr
      intro a ha
      rw [hchar_mpr a ha]
      simp
    rw [hd, List.nil_append]
    simp only [List.filter_cons, List.filter_nil]
    rw [hlast_nf]
    rfl
  rw [hlen_eq, hfilter]
  rfl

theorem foldl_dupStep_id (folder : String) :
    ∀ (bs : List ((String × String) × List RecInfo)),
      (∀ kv ∈ bs, ¬(kv.2.length > 1)) →
      ∀ acc, bs.foldl (dupStep folder) acc = acc := by
  intro bs
  induction bs with
  | nil =>
    intro _ acc
    rfl
  | cons kv bs ih =>
    intro h acc
    rw [List.foldl_cons]
    have hstep : dupStep folder acc kv = acc := by
      unfold dupStep
      rw [if_neg (h kv (List.mem_cons_self _ _))]
    rw [hstep]
    exact ih (fun kv2 h2 => h kv2 (List.mem_cons_of_mem _ h2)) acc

theorem fdif_keptListing_eq_nil (folder : String) (listing : List DirEntry)
    (hnodup : (listing.map DirEntry.name).Nodup) :
    find_duplicates_in_folder folder (keptListing folder listing) = [] := by
  unfold find_duplicates_in_folder
  apply foldl_dupStep_id
  intro kv hkv
  rw [kept_bucket_length folder listing hnodup kv hkv]
  omega

/-- C5: duplicate resolution is idempotent.  After a first run whose moves all
succeeded (the flagged filenames have left the folder), a rescan finds every
(class, normalized id) bucket with exactly one member, the second run flags
nothing, and moving its output performs zero moves and leaves any quarantine
contents untouched. -/
theorem claim_C5 (folder : String) (listing : List DirEntry)
    (hnodup : (listing.map DirEntry.name).Nodup) :
    (∀ kv ∈ groupRecords (scanRecords (keptListing folder listing)),
      kv.2.length = 1) ∧
    find_duplicates_in_folder folder (keptListing folder listing) = [] ∧
    ∀ q, move_duplicates
      (find_duplicates_in_folder folder (keptListing folder listing)) q =
      (0, q, []) := by
  refine ⟨kept_bucket_length folder listing hnodup,
    fdif_keptListing_eq_nil folder listing hnodup, ?_⟩
  intro q
  rw [fdif_keptListing_eq_nil folder listing hnodup]
  rfl

theorem claim_C5_witness :
    (∀ kv ∈ groupRecords (scanRecords (keptListing "C5"
      [⟨"SpeakingTest_5_3_24.01.01.0900.txt", true⟩,
       ⟨"SpeakingTest_5_03_24.01.01.1000.txt", true⟩,
       ⟨"SpeakingTest_5_3_24.01.01.1100.txt", true⟩])),
      kv.2.length = 1) ∧
    find_duplicates_in_folder "C5" (keptListing "C5"
      [⟨"SpeakingTest_5_3_24.01.01.0900.txt", true⟩,
       ⟨"SpeakingTest_5_03_24.01.01.1000.txt", true⟩,
       ⟨"SpeakingTest_5_3_24.01.01.1100.txt", true⟩]) = [] ∧
    ∀ q, move_duplicates (find_duplicates_in_folder "C5" (keptListing "C5"
      [⟨"SpeakingTest_5_3_24.01.01.0900.txt", true⟩,
       ⟨"SpeakingTest_5_03_24.01.01.1000.txt", true⟩,
       ⟨"SpeakingTest_5_3_24.01.01.1100.txt", true⟩])) q = (0, q, []) :=
  claim_C5 "C5"
    [⟨"SpeakingTest_5_3_24.01.01.0900.txt", true⟩,
     ⟨"SpeakingTest_5_03_24.01.01.1000.txt", true⟩,
     ⟨"SpeakingTest_5_3_24.01.01.1100.txt", true⟩] (by decide)

end SpeakingTest
